import Mathlib

/-!
Verification of the Wumpus World agent repository.

The development shallowly embeds the three source modules:
* `agent_logic.py` — the belief grid (`AgentKnowledge`) with `update_percepts`,
  `update_probabilities` and `query`;
* `wumpus.py` — the world (`WumpusWorld`) and the stateful agent
  (`WumpusAgent.move`);
* `app.py` — the near-duplicate variant (`AppWorld`, `AppAgent.move`).

Python floats are modelled as exact rationals (`ℚ`); all probability values the
code manipulates (`0.0`, `1.0`, `1/len`, `max`) are exactly representable for
the comparisons the claims are about.  Python dict-of-lists evidence maps are
modelled as flat association lists: per-key contribution lists (order included)
agree with the dict semantics, and each key is applied exactly once at the end,
as in the source.  Coordinates are integers, as in Python; every grid access in
the source is bounds-checked before indexing, so the total-function
representation of the knowledge map coincides with the Python list-of-lists on
every access the program performs.
-/

namespace WumpusVerif

/-- The percept kinds appearing in the sources: `"Breeze"`, `"Stench"`,
`"Glitter"` (wumpus.py) and `"Glowing"` (app.py). -/
inductive Percept
  | breeze
  | stench
  | glitter
  | glowing
deriving DecidableEq, Repr

/-- One cell of the knowledge map, as initialized in `AgentKnowledge.__init__`. -/
structure Cell where
  visited : Bool
  percepts : List Percept
  is_safe : Bool
  prob_pit : ℚ
  prob_wumpus : ℚ
deriving DecidableEq, Repr

/-- The default cell state from `AgentKnowledge.__init__`. -/
def Cell.init : Cell :=
  { visited := false, percepts := [], is_safe := false, prob_pit := 0, prob_wumpus := 0 }

/-- Grid coordinates, `(row, column)`, Python ints. -/
abbrev Pos := Int × Int

/-- Point update of a knowledge map. -/
def updateCell (km : Pos → Cell) (p : Pos) (f : Cell → Cell) : Pos → Cell :=
  fun q => if q = p then f (km q) else km q

/-- `AgentKnowledge._get_neighbors`: the in-bounds 4-connected neighbors of
`(r, c)`, in the source's delta order `(0,1), (0,-1), (1,0), (-1,0)`. -/
def getNeighbors (size : Nat) (p : Pos) : List Pos :=
  [(p.1, p.2 + 1), (p.1, p.2 - 1), (p.1 + 1, p.2), (p.1 - 1, p.2)].filter
    (fun q => decide (0 ≤ q.1 ∧ q.1 < (size : Int) ∧ 0 ≤ q.2 ∧ q.2 < (size : Int)))

/-- The agent's knowledge base (`AgentKnowledge`); `km` is `self.knowledge_map`. -/
structure AgentKnowledge where
  size : Nat
  km : Pos → Cell

/-- `AgentKnowledge.__init__`: all cells default, then the start cell is marked
safe. -/
def AgentKnowledge.init (size : Nat) (start : Pos) : AgentKnowledge :=
  { size := size
    km := fun p => if p = start then { Cell.init with is_safe := true } else Cell.init }

/-- Loop body of the safe-neighbor propagation in `update_percepts`:
unvisited neighbors are proven safe. -/
def safeNbrStep (km : Pos → Cell) (q : Pos) : Pos → Cell :=
  if (km q).visited then km
  else updateCell km q (fun cell => { cell with is_safe := true, prob_pit := 0, prob_wumpus := 0 })

/-- `AgentKnowledge.update_percepts(r, c, percepts)`. -/
def AgentKnowledge.update_percepts (k : AgentKnowledge) (r c : Int) (ps : List Percept) :
    AgentKnowledge :=
  let km1 := updateCell k.km (r, c) (fun cell =>
    { cell with visited := true, percepts := ps, is_safe := true, prob_pit := 0, prob_wumpus := 0 })
  let km2 :=
    if Percept.breeze ∉ ps ∧ Percept.stench ∉ ps then
      (getNeighbors k.size (r, c)).foldl safeNbrStep km1
    else km1
  { k with km := km2 }

/-- Pass 1 of `update_probabilities`: reset the probabilities of every in-grid
cell that is neither visited nor proven safe.  The Python loop touches each
cell independently, so the pointwise form is the exact same map. -/
def pass1 (k : AgentKnowledge) : AgentKnowledge :=
  { k with km := fun p =>
      let cell := k.km p
      if (0 ≤ p.1 ∧ p.1 < (k.size : Int) ∧ 0 ≤ p.2 ∧ p.2 < (k.size : Int)) ∧
          ¬cell.visited ∧ ¬cell.is_safe then
        { cell with prob_pit := 0, prob_wumpus := 0 }
      else cell }

/-- The in-source filter `[pos for pos in all_neighbors if not km[pos]['is_safe']]`. -/
def unknownNbrs (size : Nat) (km : Pos → Cell) (p : Pos) : List Pos :=
  (getNeighbors size p).filter (fun q => !(km q).is_safe)

/-- State threaded through Pass 2 of `update_probabilities`: the (mutated)
knowledge map plus the two evidence accumulators (`pit_evidence`,
`wumpus_evidence`), flattened to association lists. -/
structure Pass2State where
  km : Pos → Cell
  pitEv : List (Pos × ℚ)
  wumEv : List (Pos × ℚ)

/-- The Breeze block of Pass 2 for one visited cell. -/
def breezeStep (size : Nat) (st : Pass2State) (p : Pos) : Pass2State :=
  let cell := st.km p
  if cell.visited ∧ Percept.breeze ∈ cell.percepts then
    let u := unknownNbrs size st.km p
    if u.length = 1 then
      { st with km := updateCell st.km u.headI (fun c => { c with prob_pit := 1, is_safe := false }) }
    else if 1 < u.length then
      { st with pitEv := st.pitEv ++ u.map (fun q => (q, 1 / (u.length : ℚ))) }
    else st
  else st

/-- The Stench block of Pass 2 for one visited cell. -/
def stenchStep (size : Nat) (st : Pass2State) (p : Pos) : Pass2State :=
  let cell := st.km p
  if cell.visited ∧ Percept.stench ∈ cell.percepts then
    let u := unknownNbrs size st.km p
    if u.length = 1 then
      { st with km := updateCell st.km u.headI (fun c => { c with prob_wumpus := 1, is_safe := false }) }
    else if 1 < u.length then
      { st with wumEv := st.wumEv ++ u.map (fun q => (q, 1 / (u.length : ℚ))) }
    else st
  else st

/-- One iteration of the Pass-2 scan: the Breeze block then the Stench block
(the source guards both under `cell['visited']`; each block re-checks it). -/
def pass2Step (size : Nat) (st : Pass2State) (p : Pos) : Pass2State :=
  stenchStep size (breezeStep size st p) p

/-- Row-major enumeration of the grid, matching the nested `range` loops. -/
def gridPositions (size : Nat) : List Pos :=
  (List.range size).flatMap
    (fun (r : Nat) => (List.range size).map (fun (c : Nat) => ((r : Int), (c : Int))))

/-- Python `max` over a nonempty list (`0` for the empty list, which the source
never queries). -/
def listMax : List ℚ → ℚ
  | [] => 0
  | x :: xs => xs.foldl max x

/-- The contribution list recorded against key `p`, in recording order
(identical to the Python dict-of-lists entry for `p`). -/
def contribsAt (ev : List (Pos × ℚ)) (p : Pos) : List ℚ :=
  (ev.filter (fun e => decide (e.1 = p))).map (fun e => e.2)

/-- Application of the accumulated pit evidence (step 3 of the source): each
key with contributions and probability below `1.0` gets the max of its current
value and the max contribution.  Each dict key is processed exactly once and
only touches its own cell, so the pointwise form agrees with the loop. -/
def applyPit (km : Pos → Cell) (ev : List (Pos × ℚ)) : Pos → Cell :=
  fun p =>
    let cell := km p
    let cs := contribsAt ev p
    if cs ≠ [] ∧ cell.prob_pit < 1 then
      { cell with prob_pit := max cell.prob_pit (listMax cs) }
    else cell

/-- Application of the accumulated wumpus evidence, symmetric to `applyPit`. -/
def applyWum (km : Pos → Cell) (ev : List (Pos × ℚ)) : Pos → Cell :=
  fun p =>
    let cell := km p
    let cs := contribsAt ev p
    if cs ≠ [] ∧ cell.prob_wumpus < 1 then
      { cell with prob_wumpus := max cell.prob_wumpus (listMax cs) }
    else cell

/-- `AgentKnowledge.update_probabilities`. -/
def AgentKnowledge.update_probabilities (k : AgentKnowledge) : AgentKnowledge :=
  let k1 := pass1 k
  let st := (gridPositions k.size).foldl (pass2Step k.size)
    { km := k1.km, pitEv := [], wumEv := [] }
  { k with km := applyWum (applyPit st.km st.pitEv) st.wumEv }

/-- The `response` dict built by `AgentKnowledge.query` for in-bounds
coordinates. -/
structure QueryOk where
  coords : Int × Int
  status : String
  percepts_observed : String
  inferred_percepts : String
  prob_pit : ℚ
  prob_wumpus : ℚ
deriving DecidableEq, Repr

/-- Result of `AgentKnowledge.query`: either the error dict or the response. -/
inductive QueryResult
  | err (msg : String)
  | ok (r : QueryOk)
deriving DecidableEq, Repr

/-- Display name of a percept, as the Python string literals. -/
def perceptName : Percept → String
  | .breeze => "Breeze"
  | .stench => "Stench"
  | .glitter => "Glitter"
  | .glowing => "Glowing"

/-- `", ".join(...)` over the observable percepts `('Breeze', 'Stench',
'Glitter')` of a visited cell, `"None"` when empty. -/
def observedStr (ps : List Percept) : String :=
  let obs := ps.filter (fun p => p = .breeze ∨ p = .stench ∨ p = .glitter)
  if obs = [] then "None" else String.intercalate ", " (obs.map perceptName)

/-- The `inferred_percepts` text computed by `query` for an unvisited cell. -/
def inferredStr (cell : Cell) : String :=
  let l1 : List String := if cell.prob_pit ≥ 1 then ["Pit CERTAIN (Prob=1.0)"] else []
  let l2 : List String := if cell.prob_wumpus ≥ 1 then ["Wumpus CERTAIN (Prob=1.0)"] else []
  if l1 ++ l2 = [] then "None" else String.intercalate " / " (l1 ++ l2)

/-- `AgentKnowledge.query(r, c)`.  The method never writes `self`, so the
returned knowledge is the receiver, paired explicitly so that the no-mutation
half of the contract is part of the statement. -/
def AgentKnowledge.query (k : AgentKnowledge) (r c : Int) : QueryResult × AgentKnowledge :=
  if ¬(0 ≤ r ∧ r < (k.size : Int) ∧ 0 ≤ c ∧ c < (k.size : Int)) then
    (.err "Invalid Chamber Coordinates.", k)
  else
    let cell := k.km (r, c)
    let status0 : String :=
      if cell.prob_pit ≥ 1 ∨ cell.prob_wumpus ≥ 1 then "DEFINITELY DANGEROUS"
      else if cell.is_safe then "SAFE"
      else "UNKNOWN"
    let status : String := if cell.visited then "SAFE (VISITED)" else status0
    let pObs : String := if cell.visited then observedStr cell.percepts else "None"
    let inferred : String := if cell.visited then "None" else inferredStr cell
    (.ok { coords := (r + 1, c + 1), status := status, percepts_observed := pObs,
           inferred_percepts := inferred, prob_pit := cell.prob_pit,
           prob_wumpus := cell.prob_wumpus }, k)

/-- The status field of a query result (`""` for the error result). -/
def QueryResult.status : QueryResult → String
  | .err _ => ""
  | .ok r => r.status

/-- The two hazard kinds, used to state the Breeze/pit and Stench/wumpus
halves of the inference claims uniformly. -/
inductive Hazard
  | pit
  | wumpus
deriving DecidableEq, Repr

/-- The percept indicating a hazard kind. -/
def Hazard.indicator : Hazard → Percept
  | .pit => .breeze
  | .wumpus => .stench

/-- The probability field tracking a hazard kind. -/
def Hazard.prob : Hazard → Cell → ℚ
  | .pit => Cell.prob_pit
  | .wumpus => Cell.prob_wumpus

/-- One knowledge-base call, for stating properties of arbitrary call
sequences. -/
inductive Op
  | perceive (r c : Int) (ps : List Percept)
  | recompute

/-- Interpretation of one call. -/
def applyOp (k : AgentKnowledge) : Op → AgentKnowledge
  | .perceive r c ps => k.update_percepts r c ps
  | .recompute => k.update_probabilities

/-- Interpretation of a call sequence. -/
def runOps (k : AgentKnowledge) (ops : List Op) : AgentKnowledge :=
  ops.foldl applyOp k

/-- The calls the application makes pass the agent's in-bounds position. -/
def Op.inBounds (size : Nat) : Op → Prop
  | .perceive r c _ => 0 ≤ r ∧ r < (size : Int) ∧ 0 ≤ c ∧ c < (size : Int)
  | .recompute => True

/-- `WumpusWorld` from `wumpus.py`: positions of the hazards and the goal.
`self.size` is hard-coded to 4; the percept sets are derived. -/
structure WumpusWorld where
  wumpus_pos : Pos
  pits : List Pos
  paradise_pos : Pos

/-- `self.size` of `WumpusWorld.__init__` (`wumpus.py`). -/
def WumpusWorld.size (_ : WumpusWorld) : Nat := 4

/-- Membership in `self.stenches` after `_generate_percepts` (`wumpus.py`):
neighbors of the wumpus cell, for the wumpus cell scanned inside the grid. -/
def WumpusWorld.stenchAt (w : WumpusWorld) (p : Pos) : Bool :=
  (gridPositions 4).any (fun rc => decide (rc = w.wumpus_pos) && decide (p ∈ getNeighbors 4 rc))

/-- Membership in `self.breezes` after `_generate_percepts` (`wumpus.py`). -/
def WumpusWorld.breezeAt (w : WumpusWorld) (p : Pos) : Bool :=
  (gridPositions 4).any (fun rc => decide (rc ∈ w.pits) && decide (p ∈ getNeighbors 4 rc))

/-- Membership in `self.glows` after `_generate_percepts` (`wumpus.py`). -/
def WumpusWorld.glowAt (w : WumpusWorld) (p : Pos) : Bool :=
  (gridPositions 4).any (fun rc => decide (rc = w.paradise_pos) && decide (p ∈ getNeighbors 4 rc))

/-- `WumpusWorld.get_percepts` (`wumpus.py`). -/
def WumpusWorld.get_percepts (w : WumpusWorld) (p : Pos) : List Percept :=
  (if w.stenchAt p then [Percept.stench] else []) ++
  (if w.breezeAt p then [Percept.breeze] else []) ++
  (if w.glowAt p then [Percept.glitter] else [])

/-- `WumpusWorld.is_deadly`. -/
def WumpusWorld.is_deadly (w : WumpusWorld) (p : Pos) : Bool :=
  decide (p = w.wumpus_pos) || decide (p ∈ w.pits)

/-- `WumpusWorld.is_paradise`. -/
def WumpusWorld.is_paradise (w : WumpusWorld) (p : Pos) : Bool :=
  decide (p = w.paradise_pos)

/-- `direction.lower()`: character-wise ASCII lowercasing.  Python's
`str.lower` agrees with this on every comparison `move` performs, since the
four table keys are ASCII. -/
def strLower (s : String) : String := ⟨s.data.map Char.toLower⟩

/-- The direction table lookup `{'up': …}.get(direction.lower(), (0, 0))`,
shared verbatim by both `move` implementations. -/
def dirDelta (d : String) : Int × Int :=
  if strLower d = "up" then (-1, 0)
  else if strLower d = "down" then (1, 0)
  else if strLower d = "left" then (0, -1)
  else if strLower d = "right" then (0, 1)
  else (0, 0)

/-- `", ".join(percepts) if percepts else 'None'` for the move message. -/
def perceptsMsg (ps : List Percept) : String :=
  if ps = [] then "None" else String.intercalate ", " (ps.map perceptName)

/-- The death message f-string of `move`, with the 1-indexed destination. -/
def tragedyMsg (r c : Int) (danger : String) : String :=
  s!"TRAGEDY! Agent died at ({r + 1}, {c + 1}) due to a {danger}."

/-- `WumpusAgent` run state (`wumpus.py`). -/
structure WumpusAgent where
  world : WumpusWorld
  knowledge : AgentKnowledge
  r : Int
  c : Int
  moves_made : Nat
  max_moves : Nat
  alive : Bool

/-- `WumpusAgent.__init__` (`wumpus.py`). -/
def WumpusAgent.init (world : WumpusWorld) (ksize : Nat) (start : Pos) (max_moves : Nat) :
    WumpusAgent :=
  let k0 := AgentKnowledge.init ksize start
  let k1 := (k0.update_percepts start.1 start.2 (world.get_percepts start)).update_probabilities
  { world := world, knowledge := k1, r := start.1, c := start.2,
    moves_made := 0, max_moves := max_moves, alive := true }

/-- `WumpusAgent.move` (`wumpus.py`), returning `(success, message)` and the
successor run state. -/
def WumpusAgent.move (a : WumpusAgent) (direction : String) : (Bool × String) × WumpusAgent :=
  if ¬a.alive ∨ a.moves_made ≥ a.max_moves then ((false, "Simulation Ended."), a)
  else if a.world.is_paradise (a.r, a.c) then
    ((false, "No need to move from paradise! You already won!"), a)
  else
    let d := dirDelta direction
    let new_r := a.r + d.1
    let new_c := a.c + d.2
    if ¬(0 ≤ new_r ∧ new_r < (a.world.size : Int) ∧ 0 ≤ new_c ∧ new_c < (a.world.size : Int)) then
      ((false, "Move cancelled: Out of bounds."), a)
    else
      let a1 := { a with r := new_r, c := new_c, moves_made := a.moves_made + 1 }
      if a1.world.is_deadly (new_r, new_c) then
        let danger : String := if (new_r, new_c) = a1.world.wumpus_pos then "Wumpus" else "Pit"
        ((false, tragedyMsg new_r new_c danger), { a1 with alive := false })
      else
        let ps := a1.world.get_percepts (new_r, new_c)
        let k2 := (a1.knowledge.update_percepts new_r new_c ps).update_probabilities
        let a2 := { a1 with knowledge := k2 }
        if a2.world.is_paradise (new_r, new_c) then
          ((true, s!"Found paradise at ({new_r + 1}, {new_c + 1})! Horray!"), a2)
        else
          let msg := perceptsMsg ps
          ((true, s!"Moved to ({new_r + 1}, {new_c + 1}). Percepts: {msg}"), a2)

/-- A sequence of `move` calls, keeping only the final state. -/
def runMoves (a : WumpusAgent) (ds : List String) : WumpusAgent :=
  ds.foldl (fun s d => (s.move d).2) a

/-- The world of `app.py`: no glow set; `get_percepts` reports `"Glowing"` on
the paradise cell itself. -/
structure AppWorld where
  wumpus_pos : Pos
  pits : List Pos
  paradise_pos : Pos

/-- `self.size` of `WumpusWorld.__init__` (`app.py`). -/
def AppWorld.size (_ : AppWorld) : Nat := 4

/-- Membership in `self.stenches` (`app.py`). -/
def AppWorld.stenchAt (w : AppWorld) (p : Pos) : Bool :=
  (gridPositions 4).any (fun rc => decide (rc = w.wumpus_pos) && decide (p ∈ getNeighbors 4 rc))

/-- Membership in `self.breezes` (`app.py`). -/
def AppWorld.breezeAt (w : AppWorld) (p : Pos) : Bool :=
  (gridPositions 4).any (fun rc => decide (rc ∈ w.pits) && decide (p ∈ getNeighbors 4 rc))

/-- `WumpusWorld.get_percepts` (`app.py`). -/
def AppWorld.get_percepts (w : AppWorld) (p : Pos) : List Percept :=
  (if w.stenchAt p then [Percept.stench] else []) ++
  (if w.breezeAt p then [Percept.breeze] else []) ++
  (if p = w.paradise_pos then [Percept.glowing] else [])

/-- `WumpusWorld.is_terminal` (`app.py`). -/
def AppWorld.is_terminal (w : AppWorld) (p : Pos) : Bool :=
  decide (p = w.wumpus_pos) || decide (p ∈ w.pits)

/-- `WumpusAgent` run state (`app.py`). -/
structure AppAgent where
  world : AppWorld
  knowledge : AgentKnowledge
  r : Int
  c : Int
  moves_made : Nat
  max_moves : Nat
  alive : Bool

/-- `WumpusAgent.move` (`app.py`): no paradise checks. -/
def AppAgent.move (a : AppAgent) (direction : String) : (Bool × String) × AppAgent :=
  if ¬a.alive ∨ a.moves_made ≥ a.max_moves then ((false, "Simulation Ended."), a)
  else
    let d := dirDelta direction
    let new_r := a.r + d.1
    let new_c := a.c + d.2
    if ¬(0 ≤ new_r ∧ new_r < (a.world.size : Int) ∧ 0 ≤ new_c ∧ new_c < (a.world.size : Int)) then
      ((false, "Move cancelled: Out of bounds."), a)
    else
      let a1 := { a with r := new_r, c := new_c, moves_made := a.moves_made + 1 }
      if a1.world.is_terminal (new_r, new_c) then
        let danger : String := if (new_r, new_c) = a1.world.wumpus_pos then "Wumpus" else "Pit"
        ((false, tragedyMsg new_r new_c danger), { a1 with alive := false })
      else
        let ps := a1.world.get_percepts (new_r, new_c)
        let k2 := (a1.knowledge.update_percepts new_r new_c ps).update_probabilities
        let a2 := { a1 with knowledge := k2 }
        let msg := perceptsMsg ps
        ((true, s!"Moved to ({new_r + 1}, {new_c + 1}). Percepts: {msg}"), a2)

/-- A sequence of `move` calls in the `app.py` variant. -/
def runMovesApp (a : AppAgent) (ds : List String) : AppAgent :=
  ds.foldl (fun s d => (s.move d).2) a

/-- Two knowledge maps agreeing on the `visited`, `percepts` and `is_safe`
components everywhere (the components Pass 2 never alters). -/
def sameShape (m m' : Pos → Cell) : Prop :=
  ∀ p, (m' p).visited = (m p).visited ∧ (m' p).percepts = (m p).percepts ∧
    (m' p).is_safe = (m p).is_safe

/-- The pit-evidence contributions one scanned cell adds during Pass 2, as a
function of the scan-invariant components of the knowledge map. -/
def pitBlock (size : Nat) (km : Pos → Cell) (p : Pos) : List (Pos × ℚ) :=
  if (km p).visited = true ∧ Percept.breeze ∈ (km p).percepts then
    (if 1 < (unknownNbrs size km p).length then
      (unknownNbrs size km p).map (fun q => (q, 1 / ((unknownNbrs size km p).length : ℚ)))
    else [])
  else []

/-- The wumpus-evidence contributions one scanned cell adds during Pass 2. -/
def wumBlock (size : Nat) (km : Pos → Cell) (p : Pos) : List (Pos × ℚ) :=
  if (km p).visited = true ∧ Percept.stench ∈ (km p).percepts then
    (if 1 < (unknownNbrs size km p).length then
      (unknownNbrs size km p).map (fun q => (q, 1 / ((unknownNbrs size km p).length : ℚ)))
    else [])
  else []

/-- All pit-evidence contributions over a scan list. -/
def pitBlocks (size : Nat) (km : Pos → Cell) (l : List Pos) : List (Pos × ℚ) :=
  (l.map (pitBlock size km)).flatten

/-- All wumpus-evidence contributions over a scan list. -/
def wumBlocks (size : Nat) (km : Pos → Cell) (l : List Pos) : List (Pos × ℚ) :=
  (l.map (wumBlock size km)).flatten

/-- The scanned cell `p` pit-eliminates `q`: `p` is visited with a Breeze and
`q` is its single not-proven-safe neighbor. -/
def elimPitCond (size : Nat) (km : Pos → Cell) (p q : Pos) : Prop :=
  (km p).visited = true ∧ Percept.breeze ∈ (km p).percepts ∧ unknownNbrs size km p = [q]

/-- The scanned cell `p` wumpus-eliminates `q`. -/
def elimWumCond (size : Nat) (km : Pos → Cell) (p q : Pos) : Prop :=
  (km p).visited = true ∧ Percept.stench ∈ (km p).percepts ∧ unknownNbrs size km p = [q]

/-- The visited-cell invariant of the specification: every visited cell is
proven safe with both probabilities zero. -/
def visitedOK (k : AgentKnowledge) : Prop :=
  ∀ p, (k.km p).visited = true →
    (k.km p).is_safe = true ∧ (k.km p).prob_pit = 0 ∧ (k.km p).prob_wumpus = 0

/-! Concrete states used by counterexamples and witnesses. -/

/-- A one-cell knowledge state whose only cell is visited yet carries
`prob_pit = 1.0`; exercises the branch order of `query`. -/
def kQbad : AgentKnowledge :=
  { size := 1, km := fun _ => { Cell.init with visited := true, is_safe := true, prob_pit := 1 } }

/-- 2×2 state: `(0,0)` visited with a Breeze, `(0,1)` proven safe, so `(1,0)`
is the single not-proven-safe neighbor of `(0,0)`. -/
def kElim : AgentKnowledge :=
  { size := 2, km := fun p =>
      if p = ((0 : Int), (0 : Int)) then
        { Cell.init with visited := true, percepts := [Percept.breeze], is_safe := true }
      else if p = ((0 : Int), (1 : Int)) then { Cell.init with is_safe := true }
      else Cell.init }

/-- `kElim` with the eliminated neighbor already at certainty. -/
def kElimDone : AgentKnowledge :=
  { size := 2, km := fun p =>
      if p = ((0 : Int), (0 : Int)) then
        { Cell.init with visited := true, percepts := [Percept.breeze], is_safe := true }
      else if p = ((0 : Int), (1 : Int)) then { Cell.init with is_safe := true }
      else if p = ((1 : Int), (0 : Int)) then { Cell.init with prob_pit := 1 }
      else Cell.init }

/-- 2×2 state: `(0,0)` visited with a Breeze and two not-proven-safe
neighbors, for the distributed-evidence claim. -/
def kDist : AgentKnowledge :=
  { size := 2, km := fun p =>
      if p = ((0 : Int), (0 : Int)) then
        { Cell.init with visited := true, percepts := [Percept.breeze], is_safe := true }
      else Cell.init }

/-- The world used by the movement witnesses: wumpus at `(0,2)` (1-indexed
`(1,3)`), no pits, gold at `(3,3)`. -/
def w0 : WumpusWorld := { wumpus_pos := (0, 2), pits := [], paradise_pos := (3, 3) }

/-- An active `wumpus.py` agent at the start cell. -/
def a0 : WumpusAgent :=
  { world := w0, knowledge := AgentKnowledge.init 4 (0, 0), r := 0, c := 0,
    moves_made := 0, max_moves := 20, alive := true }

/-- An active `wumpus.py` agent standing next to the wumpus. -/
def b0 : WumpusAgent :=
  { world := w0, knowledge := AgentKnowledge.init 4 (0, 0), r := 0, c := 1,
    moves_made := 0, max_moves := 20, alive := true }

/-- The `app.py` world for the movement witnesses. -/
def appW0 : AppWorld := { wumpus_pos := (0, 2), pits := [], paradise_pos := (3, 3) }

/-- An active `app.py` agent at the start cell. -/
def appA0 : AppAgent :=
  { world := appW0, knowledge := AgentKnowledge.init 4 (0, 0), r := 0, c := 0,
    moves_made := 0, max_moves := 20, alive := true }

/-- An active `app.py` agent standing next to the wumpus. -/
def appB0 : AppAgent :=
  { world := appW0, knowledge := AgentKnowledge.init 4 (0, 0), r := 0, c := 1,
    moves_made := 0, max_moves := 20, alive := true }

/-- The Pass-2 state reached by `update_probabilities` after the scan,
starting from the reset map and empty evidence. -/
def pass2Final (k : AgentKnowledge) : Pass2State :=
  (gridPositions k.size).foldl (pass2Step k.size)
    { km := (pass1 k).km, pitEv := [], wumEv := [] }

/-! ### Basic lemmas -/

theorem updateCell_self (km : Pos → Cell) (p : Pos) (f : Cell → Cell) :
    updateCell km p f p = f (km p) := by
  simp [updateCell]

theorem updateCell_other (km : Pos → Cell) (p : Pos) (f : Cell → Cell) {q : Pos} (h : q ≠ p) :
    updateCell km p f q = km q := by
  simp [updateCell, h]

theorem mem_getNeighbors_bounds {s : Nat} {p q : Pos} (h : q ∈ getNeighbors s p) :
    0 ≤ q.1 ∧ q.1 < (s : Int) ∧ 0 ≤ q.2 ∧ q.2 < (s : Int) := by
  have h' := (List.mem_filter.mp h).2
  simpa using h'

theorem mem_getNeighbors_ne {s : Nat} {p q : Pos} (h : q ∈ getNeighbors s p) : q ≠ p := by
  have h' := (List.mem_filter.mp h).1
  simp only [List.mem_cons, List.not_mem_nil, or_false] at h'
  intro hqp
  subst hqp
  rcases h' with h1 | h1 | h1 | h1 <;> (rw [Prod.ext_iff] at h1; omega)

theorem getNeighbors_nodup (s : Nat) (p : Pos) : (getNeighbors s p).Nodup := by
  apply List.Nodup.filter
  refine List.nodup_cons.mpr ⟨?_, List.nodup_cons.mpr ⟨?_, List.nodup_cons.mpr
    ⟨?_, List.nodup_singleton _⟩⟩⟩ <;> simp [Prod.ext_iff] <;> omega

theorem le_foldl_max_init (l : List ℚ) (a : ℚ) : a ≤ l.foldl max a := by
  induction l generalizing a with
  | nil => exact le_refl a
  | cons h t ih => exact le_trans (le_max_left a h) (ih (max a h))

theorem le_foldl_max_of_mem {l : List ℚ} {x : ℚ} (a : ℚ) (h : x ∈ l) : x ≤ l.foldl max a := by
  induction l generalizing a with
  | nil => cases h
  | cons y t ih =>
    rcases List.mem_cons.mp h with rfl | hx
    · exact le_trans (le_max_right a x) (le_foldl_max_init t (max a x))
    · exact ih (max a y) hx

theorem le_listMax_of_mem {l : List ℚ} {x : ℚ} (h : x ∈ l) : x ≤ listMax l := by
  cases l with
  | nil => cases h
  | cons y t =>
    rcases List.mem_cons.mp h with rfl | hx
    · exact le_foldl_max_init t x
    · exact le_foldl_max_of_mem y hx

theorem listMax_nonneg {l : List ℚ} (hne : l ≠ []) (h : ∀ x ∈ l, 0 ≤ x) : 0 ≤ listMax l := by
  cases l with
  | nil => exact absurd rfl hne
  | cons y t => exact le_trans (h y (List.mem_cons_self y t)) (le_listMax_of_mem (List.mem_cons_self y t))

theorem listMax_singleton (x : ℚ) : listMax [x] = x := rfl

theorem sameShape_refl (m : Pos → Cell) : sameShape m m := fun _ => ⟨rfl, rfl, rfl⟩

theorem sameShape_trans {m1 m2 m3 : Pos → Cell} (h12 : sameShape m1 m2) (h23 : sameShape m2 m3) :
    sameShape m1 m3 := by
  intro p
  obtain ⟨a1, b1, c1⟩ := h12 p
  obtain ⟨a2, b2, c2⟩ := h23 p
  exact ⟨a2.trans a1, b2.trans b1, c2.trans c1⟩

theorem unknownNbrs_congr {m m' : Pos → Cell} (h : sameShape m m') (s : Nat) (p : Pos) :
    unknownNbrs s m' p = unknownNbrs s m p := by
  unfold unknownNbrs
  apply List.filter_congr
  intro q _
  rw [(h q).2.2]

theorem pitBlock_congr {m m' : Pos → Cell} (h : sameShape m m') (s : Nat) (p : Pos) :
    pitBlock s m' p = pitBlock s m p := by
  unfold pitBlock
  rw [(h p).1, (h p).2.1, unknownNbrs_congr h]

theorem wumBlock_congr {m m' : Pos → Cell} (h : sameShape m m') (s : Nat) (p : Pos) :
    wumBlock s m' p = wumBlock s m p := by
  unfold wumBlock
  rw [(h p).1, (h p).2.1, unknownNbrs_congr h]

theorem pitBlocks_congr {m m' : Pos → Cell} (h : sameShape m m') (s : Nat) (l : List Pos) :
    pitBlocks s m' l = pitBlocks s m l := by
  unfold pitBlocks
  congr 1
  exact List.map_congr_left (fun p _ => pitBlock_congr h s p)

theorem wumBlocks_congr {m m' : Pos → Cell} (h : sameShape m m') (s : Nat) (l : List Pos) :
    wumBlocks s m' l = wumBlocks s m l := by
  unfold wumBlocks
  congr 1
  exact List.map_congr_left (fun p _ => wumBlock_congr h s p)

theorem elimPitCond_congr {m m' : Pos → Cell} (h : sameShape m m') (s : Nat) (p q : Pos) :
    elimPitCond s m' p q ↔ elimPitCond s m p q := by
  unfold elimPitCond
  rw [(h p).1, (h p).2.1, unknownNbrs_congr h]

theorem elimWumCond_congr {m m' : Pos → Cell} (h : sameShape m m') (s : Nat) (p q : Pos) :
    elimWumCond s m' p q ↔ elimWumCond s m p q := by
  unfold elimWumCond
  rw [(h p).1, (h p).2.1, unknownNbrs_congr h]

theorem mem_unknownNbrs_unsafe {s : Nat} {km : Pos → Cell} {p q : Pos}
    (h : q ∈ unknownNbrs s km p) : (km q).is_safe = false := by
  have h' := (List.mem_filter.mp h).2
  simpa using h'

theorem mem_unknownNbrs_nbr {s : Nat} {km : Pos → Cell} {p q : Pos}
    (h : q ∈ unknownNbrs s km p) : q ∈ getNeighbors s p :=
  (List.mem_filter.mp h).1

theorem unknownNbrs_nodup (s : Nat) (km : Pos → Cell) (p : Pos) :
    (unknownNbrs s km p).Nodup :=
  (getNeighbors_nodup s p).filter _

/-! ### Pass-2 step lemmas -/

theorem breezeStep_def (s : Nat) (st : Pass2State) (p : Pos) :
    breezeStep s st p =
      if (st.km p).visited = true ∧ Percept.breeze ∈ (st.km p).percepts then
        (if (unknownNbrs s st.km p).length = 1 then
          { st with km := (updateCell st.km (unknownNbrs s st.km p).headI (fun c => { c with prob_pit := 1, is_safe := false })) }
        else if 1 < (unknownNbrs s st.km p).length then
          { st with pitEv := st.pitEv ++ (unknownNbrs s st.km p).map (fun q => (q, 1 / ((unknownNbrs s st.km p).length : ℚ))) }
        else st)
      else st := rfl

theorem stenchStep_def (s : Nat) (st : Pass2State) (p : Pos) :
    stenchStep s st p =
      if (st.km p).visited = true ∧ Percept.stench ∈ (st.km p).percepts then
        (if (unknownNbrs s st.km p).length = 1 then
          { st with km := (updateCell st.km (unknownNbrs s st.km p).headI (fun c => { c with prob_wumpus := 1, is_safe := false })) }
        else if 1 < (unknownNbrs s st.km p).length then
          { st with wumEv := st.wumEv ++ (unknownNbrs s st.km p).map (fun q => (q, 1 / ((unknownNbrs s st.km p).length : ℚ))) }
        else st)
      else st := rfl

theorem breezeStep_km_cases (s : Nat) (st : Pass2State) (p : Pos) :
    (breezeStep s st p).km = st.km ∨
    ∃ t, unknownNbrs s st.km p = [t] ∧ (st.km p).visited = true ∧
      Percept.breeze ∈ (st.km p).percepts ∧
      (breezeStep s st p).km =
        updateCell st.km t (fun c => { c with prob_pit := 1, is_safe := false }) := by
  rw [breezeStep_def]
  split
  · rename_i hg
    split
    · rename_i hlen
      obtain ⟨t, ht⟩ := List.length_eq_one.mp hlen
      refine Or.inr ⟨t, ht, hg.1, hg.2, ?_⟩
      rw [ht]
      rfl
    · split <;> exact Or.inl rfl
  · exact Or.inl rfl

theorem stenchStep_km_cases (s : Nat) (st : Pass2State) (p : Pos) :
    (stenchStep s st p).km = st.km ∨
    ∃ t, unknownNbrs s st.km p = [t] ∧ (st.km p).visited = true ∧
      Percept.stench ∈ (st.km p).percepts ∧
      (stenchStep s st p).km =
        updateCell st.km t (fun c => { c with prob_wumpus := 1, is_safe := false }) := by
  rw [stenchStep_def]
  split
  · rename_i hg
    split
    · rename_i hlen
      obtain ⟨t, ht⟩ := List.length_eq_one.mp hlen
      refine Or.inr ⟨t, ht, hg.1, hg.2, ?_⟩
      rw [ht]
      rfl
    · split <;> exact Or.inl rfl
  · exact Or.inl rfl

theorem breezeStep_shape (s : Nat) (st : Pass2State) (p : Pos) :
    sameShape st.km (breezeStep s st p).km := by
  rcases breezeStep_km_cases s st p with h | ⟨t, ht, _, _, h⟩
  · rw [h]; exact sameShape_refl _
  · rw [h]
    intro q
    by_cases hq : q = t
    · subst hq
      rw [updateCell_self]
      have hsafe : (st.km q).is_safe = false :=
        mem_unknownNbrs_unsafe (by rw [ht]; exact List.mem_singleton_self q)
      exact ⟨rfl, rfl, hsafe.symm⟩
    · rw [updateCell_other _ _ _ hq]
      exact ⟨rfl, rfl, rfl⟩

theorem stenchStep_shape (s : Nat) (st : Pass2State) (p : Pos) :
    sameShape st.km (stenchStep s st p).km := by
  rcases stenchStep_km_cases s st p with h | ⟨t, ht, _, _, h⟩
  · rw [h]; exact sameShape_refl _
  · rw [h]
    intro q
    by_cases hq : q = t
    · subst hq
      rw [updateCell_self]
      have hsafe : (st.km q).is_safe = false :=
        mem_unknownNbrs_unsafe (by rw [ht]; exact List.mem_singleton_self q)
      exact ⟨rfl, rfl, hsafe.symm⟩
    · rw [updateCell_other _ _ _ hq]
      exact ⟨rfl, rfl, rfl⟩

theorem pass2Step_shape (s : Nat) (st : Pass2State) (p : Pos) :
    sameShape st.km (pass2Step s st p).km :=
  sameShape_trans (breezeStep_shape s st p) (stenchStep_shape s (breezeStep s st p) p)

theorem foldl_pass2_shape (s : Nat) (l : List Pos) (st : Pass2State) :
    sameShape st.km ((l.foldl (pass2Step s) st)).km := by
  induction l generalizing st with
  | nil => exact sameShape_refl _
  | cons h t ih =>
    exact sameShape_trans (pass2Step_shape s st h) (ih (pass2Step s st h))

/-! ### Evidence accumulation -/

theorem breezeStep_pitEv (s : Nat) (st : Pass2State) (p : Pos) :
    (breezeStep s st p).pitEv = st.pitEv ++ pitBlock s st.km p := by
  rw [breezeStep_def, pitBlock]
  split
  · split
    · rename_i hlen
      rw [if_neg (by omega)]
      simp
    · split
      · rfl
      · simp
  · simp

theorem breezeStep_wumEv (s : Nat) (st : Pass2State) (p : Pos) :
    (breezeStep s st p).wumEv = st.wumEv := by
  rw [breezeStep_def]
  split
  · split
    · rfl
    · split <;> rfl
  · rfl

theorem stenchStep_pitEv (s : Nat) (st : Pass2State) (p : Pos) :
    (stenchStep s st p).pitEv = st.pitEv := by
  rw [stenchStep_def]
  split
  · split
    · rfl
    · split <;> rfl
  · rfl

theorem stenchStep_wumEv (s : Nat) (st : Pass2State) (p : Pos) :
    (stenchStep s st p).wumEv = st.wumEv ++ wumBlock s st.km p := by
  rw [stenchStep_def, wumBlock]
  split
  · split
    · rename_i hlen
      rw [if_neg (by omega)]
      simp
    · split
      · rfl
      · simp
  · simp

theorem pass2Step_pitEv (s : Nat) (st : Pass2State) (p : Pos) :
    (pass2Step s st p).pitEv = st.pitEv ++ pitBlock s st.km p := by
  unfold pass2Step
  rw [stenchStep_pitEv, breezeStep_pitEv]

theorem pass2Step_wumEv (s : Nat) (st : Pass2State) (p : Pos) :
    (pass2Step s st p).wumEv = st.wumEv ++ wumBlock s st.km p := by
  unfold pass2Step
  rw [stenchStep_wumEv, breezeStep_wumEv, wumBlock_congr (breezeStep_shape s st p)]

theorem pitBlocks_nil (s : Nat) (km : Pos → Cell) : pitBlocks s km [] = [] := rfl

theorem pitBlocks_cons (s : Nat) (km : Pos → Cell) (h : Pos) (t : List Pos) :
    pitBlocks s km (h :: t) = pitBlock s km h ++ pitBlocks s km t := by
  simp [pitBlocks]

theorem wumBlocks_cons (s : Nat) (km : Pos → Cell) (h : Pos) (t : List Pos) :
    wumBlocks s km (h :: t) = wumBlock s km h ++ wumBlocks s km t := by
  simp [wumBlocks]

theorem foldl_pitEv (s : Nat) (l : List Pos) (st : Pass2State) :
    (l.foldl (pass2Step s) st).pitEv = st.pitEv ++ pitBlocks s st.km l := by
  induction l generalizing st with
  | nil => simp [pitBlocks]
  | cons h t ih =>
    show ((t.foldl (pass2Step s) (pass2Step s st h))).pitEv = _
    rw [ih, pass2Step_pitEv, pitBlocks_congr (pass2Step_shape s st h), pitBlocks_cons,
      List.append_assoc]

theorem foldl_wumEv (s : Nat) (l : List Pos) (st : Pass2State) :
    (l.foldl (pass2Step s) st).wumEv = st.wumEv ++ wumBlocks s st.km l := by
  induction l generalizing st with
  | nil => simp [wumBlocks]
  | cons h t ih =>
    show ((t.foldl (pass2Step s) (pass2Step s st h))).wumEv = _
    rw [ih, pass2Step_wumEv, wumBlocks_congr (pass2Step_shape s st h), wumBlocks_cons,
      List.append_assoc]

theorem mem_pitBlock {s : Nat} {km : Pos → Cell} {p : Pos} {e : Pos × ℚ}
    (h : e ∈ pitBlock s km p) :
    (km p).visited = true ∧ Percept.breeze ∈ (km p).percepts ∧
      1 < (unknownNbrs s km p).length ∧ e.1 ∈ unknownNbrs s km p ∧
      e.2 = 1 / ((unknownNbrs s km p).length : ℚ) := by
  unfold pitBlock at h
  split at h
  · rename_i hg
    split at h
    · rename_i hlen
      obtain ⟨q, hq, rfl⟩ := List.mem_map.mp h
      exact ⟨hg.1, hg.2, hlen, hq, rfl⟩
    · cases h
  · cases h

theorem mem_wumBlock {s : Nat} {km : Pos → Cell} {p : Pos} {e : Pos × ℚ}
    (h : e ∈ wumBlock s km p) :
    (km p).visited = true ∧ Percept.stench ∈ (km p).percepts ∧
      1 < (unknownNbrs s km p).length ∧ e.1 ∈ unknownNbrs s km p ∧
      e.2 = 1 / ((unknownNbrs s km p).length : ℚ) := by
  unfold wumBlock at h
  split at h
  · rename_i hg
    split at h
    · rename_i hlen
      obtain ⟨q, hq, rfl⟩ := List.mem_map.mp h
      exact ⟨hg.1, hg.2, hlen, hq, rfl⟩
    · cases h
  · cases h

theorem mem_pitBlocks {s : Nat} {km : Pos → Cell} {l : List Pos} {e : Pos × ℚ}
    (h : e ∈ pitBlocks s km l) : ∃ w ∈ l, e ∈ pitBlock s km w := by
  unfold pitBlocks at h
  obtain ⟨b, hb, he⟩ := List.mem_flatten.mp h
  obtain ⟨w, hw, rfl⟩ := List.mem_map.mp hb
  exact ⟨w, hw, he⟩

theorem mem_wumBlocks {s : Nat} {km : Pos → Cell} {l : List Pos} {e : Pos × ℚ}
    (h : e ∈ wumBlocks s km l) : ∃ w ∈ l, e ∈ wumBlock s km w := by
  unfold wumBlocks at h
  obtain ⟨b, hb, he⟩ := List.mem_flatten.mp h
  obtain ⟨w, hw, rfl⟩ := List.mem_map.mp hb
  exact ⟨w, hw, he⟩

theorem mem_contribsAt {ev : List (Pos × ℚ)} {q : Pos} {x : ℚ} :
    x ∈ contribsAt ev q ↔ (q, x) ∈ ev := by
  constructor
  · intro h
    obtain ⟨e, he, rfl⟩ := List.mem_map.mp h
    obtain ⟨hev, hkey⟩ := List.mem_filter.mp he
    have : e.1 = q := by simpa using hkey
    rw [show (q, e.2) = e from by rw [← this]]
    exact hev
  · intro h
    exact List.mem_map.mpr ⟨(q, x), List.mem_filter.mpr ⟨h, by simp⟩, rfl⟩

theorem contribsAt_pit_nil_of_safe {s : Nat} {km : Pos → Cell} {l : List Pos} {q : Pos}
    (hs : (km q).is_safe = true) : contribsAt (pitBlocks s km l) q = [] := by
  unfold contribsAt
  rw [List.filter_eq_nil_iff.mpr, List.map_nil]
  intro e he
  simp only [decide_eq_true_eq]
  intro hkey
  obtain ⟨w, _, hew⟩ := mem_pitBlocks he
  have := mem_unknownNbrs_unsafe ((mem_pitBlock hew).2.2.2.1)
  rw [hkey, hs] at this
  cases this

theorem contribsAt_wum_nil_of_safe {s : Nat} {km : Pos → Cell} {l : List Pos} {q : Pos}
    (hs : (km q).is_safe = true) : contribsAt (wumBlocks s km l) q = [] := by
  unfold contribsAt
  rw [List.filter_eq_nil_iff.mpr, List.map_nil]
  intro e he
  simp only [decide_eq_true_eq]
  intro hkey
  obtain ⟨w, _, hew⟩ := mem_wumBlocks he
  have := mem_unknownNbrs_unsafe ((mem_wumBlock hew).2.2.2.1)
  rw [hkey, hs] at this
  cases this

/-! ### Probability fields through the Pass-2 scan -/

theorem breezeStep_pw (s : Nat) (st : Pass2State) (p q : Pos) :
    ((breezeStep s st p).km q).prob_wumpus = (st.km q).prob_wumpus := by
  rcases breezeStep_km_cases s st p with h | ⟨t, _, _, _, h⟩
  · rw [h]
  · rw [h]
    by_cases hq : q = t
    · subst hq; rw [updateCell_self]
    · rw [updateCell_other _ _ _ hq]

theorem stenchStep_pp (s : Nat) (st : Pass2State) (p q : Pos) :
    ((stenchStep s st p).km q).prob_pit = (st.km q).prob_pit := by
  rcases stenchStep_km_cases s st p with h | ⟨t, _, _, _, h⟩
  · rw [h]
  · rw [h]
    by_cases hq : q = t
    · subst hq; rw [updateCell_self]
    · rw [updateCell_other _ _ _ hq]

theorem pass2Step_pp_one {s : Nat} {st : Pass2State} {q : Pos} (p : Pos)
    (h : (st.km q).prob_pit = 1) : ((pass2Step s st p).km q).prob_pit = 1 := by
  unfold pass2Step
  rw [stenchStep_pp]
  rcases breezeStep_km_cases s st p with hc | ⟨t, _, _, _, hc⟩
  · rw [hc]; exact h
  · rw [hc]
    by_cases hq : q = t
    · subst hq; rw [updateCell_self]
    · rw [updateCell_other _ _ _ hq]; exact h

theorem pass2Step_pw_one {s : Nat} {st : Pass2State} {q : Pos} (p : Pos)
    (h : (st.km q).prob_wumpus = 1) : ((pass2Step s st p).km q).prob_wumpus = 1 := by
  unfold pass2Step
  rcases stenchStep_km_cases s (breezeStep s st p) p with hc | ⟨t, _, _, _, hc⟩
  · rw [hc, breezeStep_pw]; exact h
  · rw [hc]
    by_cases hq : q = t
    · subst hq; rw [updateCell_self]
    · rw [updateCell_other _ _ _ hq, breezeStep_pw]; exact h

theorem foldl_pp_one {s : Nat} {st : Pass2State} {q : Pos} (l : List Pos)
    (h : (st.km q).prob_pit = 1) : ((l.foldl (pass2Step s) st).km q).prob_pit = 1 := by
  induction l generalizing st with
  | nil => exact h
  | cons x t ih => exact ih (pass2Step_pp_one x h)

theorem foldl_pw_one {s : Nat} {st : Pass2State} {q : Pos} (l : List Pos)
    (h : (st.km q).prob_wumpus = 1) : ((l.foldl (pass2Step s) st).km q).prob_wumpus = 1 := by
  induction l generalizing st with
  | nil => exact h
  | cons x t ih => exact ih (pass2Step_pw_one x h)

theorem pass2Step_pp_untouched {s : Nat} {st : Pass2State} {p q : Pos}
    (h : ¬elimPitCond s st.km p q) :
    ((pass2Step s st p).km q).prob_pit = (st.km q).prob_pit := by
  unfold pass2Step
  rw [stenchStep_pp]
  rcases breezeStep_km_cases s st p with hc | ⟨t, ht, hv, hb, hc⟩
  · rw [hc]
  · rw [hc]
    by_cases hq : q = t
    · subst hq
      exact absurd ⟨hv, hb, ht⟩ h
    · rw [updateCell_other _ _ _ hq]

theorem pass2Step_pw_untouched {s : Nat} {st : Pass2State} {p q : Pos}
    (h : ¬elimWumCond s st.km p q) :
    ((pass2Step s st p).km q).prob_wumpus = (st.km q).prob_wumpus := by
  unfold pass2Step
  rcases stenchStep_km_cases s (breezeStep s st p) p with hc | ⟨t, ht, hv, hs', hc⟩
  · rw [hc, breezeStep_pw]
  · rw [hc]
    by_cases hq : q = t
    · subst hq
      have : elimWumCond s st.km p q :=
        (elimWumCond_congr (breezeStep_shape s st p) s p q).mp ⟨hv, hs', ht⟩
      exact absurd this h
    · rw [updateCell_other _ _ _ hq, breezeStep_pw]

theorem foldl_pp_untouched {s : Nat} {st : Pass2State} {q : Pos} {l : List Pos}
    (h : ∀ w ∈ l, ¬elimPitCond s st.km w q) :
    ((l.foldl (pass2Step s) st).km q).prob_pit = (st.km q).prob_pit := by
  induction l generalizing st with
  | nil => rfl
  | cons x t ih =>
    show ((t.foldl (pass2Step s) (pass2Step s st x)).km q).prob_pit = _
    rw [ih, pass2Step_pp_untouched (h x (List.mem_cons_self x t))]
    intro w hw
    rw [elimPitCond_congr (pass2Step_shape s st x)]
    exact h w (List.mem_cons_of_mem x hw)

theorem foldl_pw_untouched {s : Nat} {st : Pass2State} {q : Pos} {l : List Pos}
    (h : ∀ w ∈ l, ¬elimWumCond s st.km w q) :
    ((l.foldl (pass2Step s) st).km q).prob_wumpus = (st.km q).prob_wumpus := by
  induction l generalizing st with
  | nil => rfl
  | cons x t ih =>
    show ((t.foldl (pass2Step s) (pass2Step s st x)).km q).prob_wumpus = _
    rw [ih, pass2Step_pw_untouched (h x (List.mem_cons_self x t))]
    intro w hw
    rw [elimWumCond_congr (pass2Step_shape s st x)]
    exact h w (List.mem_cons_of_mem x hw)

theorem pass2Step_safe_cell {s : Nat} {st : Pass2State} {q : Pos} (p : Pos)
    (h : (st.km q).is_safe = true) : (pass2Step s st p).km q = st.km q := by
  unfold pass2Step
  have hb : (breezeStep s st p).km q = st.km q := by
    rcases breezeStep_km_cases s st p with hc | ⟨t, ht, _, _, hc⟩
    · rw [hc]
    · rw [hc]
      have ht' : (st.km t).is_safe = false :=
        mem_unknownNbrs_unsafe (by rw [ht]; exact List.mem_singleton_self t)
      have hq : q ≠ t := by
        intro hqt
        rw [hqt, ht'] at h
        cases h
      rw [updateCell_other _ _ _ hq]
  rcases stenchStep_km_cases s (breezeStep s st p) p with hc | ⟨t, ht, _, _, hc⟩
  · rw [hc]; exact hb
  · rw [hc]
    have ht' : ((breezeStep s st p).km t).is_safe = false :=
      mem_unknownNbrs_unsafe (by rw [ht]; exact List.mem_singleton_self t)
    have hq : q ≠ t := by
      intro hqt
      rw [← hqt, hb, h] at ht'
      cases ht'
    rw [updateCell_other _ _ _ hq]; exact hb

theorem foldl_safe_cell {s : Nat} {st : Pass2State} {q : Pos} (l : List Pos)
    (h : (st.km q).is_safe = true) : (l.foldl (pass2Step s) st).km q = st.km q := by
  induction l generalizing st with
  | nil => rfl
  | cons x t ih =>
    show (t.foldl (pass2Step s) (pass2Step s st x)).km q = _
    rw [ih, pass2Step_safe_cell x h]
    rw [((pass2Step_shape s st x) q).2.2, h]

/-! ### Elimination firing -/

theorem pass2Step_fires_pit {s : Nat} {st : Pass2State} {p q : Pos}
    (hv : (st.km p).visited = true) (hb : Percept.breeze ∈ (st.km p).percepts)
    (hu : unknownNbrs s st.km p = [q]) : ((pass2Step s st p).km q).prob_pit = 1 := by
  unfold pass2Step
  rw [stenchStep_pp]
  have : breezeStep s st p =
      { st with km := (updateCell st.km q (fun c => { c with prob_pit := 1, is_safe := false })) } := by
    rw [breezeStep_def, hu]
    simp [hv, hb]
  rw [this]
  simp [updateCell_self]

theorem pass2Step_fires_wum {s : Nat} {st : Pass2State} {p q : Pos}
    (hv : (st.km p).visited = true) (hs : Percept.stench ∈ (st.km p).percepts)
    (hu : unknownNbrs s st.km p = [q]) : ((pass2Step s st p).km q).prob_wumpus = 1 := by
  unfold pass2Step
  have hsh := breezeStep_shape s st p
  have hv' : ((breezeStep s st p).km p).visited = true := by rw [(hsh p).1]; exact hv
  have hs' : Percept.stench ∈ ((breezeStep s st p).km p).percepts := by
    rw [(hsh p).2.1]; exact hs
  have hu' : unknownNbrs s (breezeStep s st p).km p = [q] := by
    rw [unknownNbrs_congr hsh]; exact hu
  have : stenchStep s (breezeStep s st p) p =
      { breezeStep s st p with km := (updateCell (breezeStep s st p).km q (fun c => { c with prob_wumpus := 1, is_safe := false })) } := by
    rw [stenchStep_def, hu']
    simp [hv', hs']
  rw [this]
  simp [updateCell_self]

theorem foldl_fires_pit {s : Nat} {st : Pass2State} {v q : Pos} {l : List Pos}
    (hmem : v ∈ l) (hv : (st.km v).visited = true)
    (hb : Percept.breeze ∈ (st.km v).percepts) (hu : unknownNbrs s st.km v = [q]) :
    ((l.foldl (pass2Step s) st).km q).prob_pit = 1 := by
  induction l generalizing st with
  | nil => cases hmem
  | cons x t ih =>
    show ((t.foldl (pass2Step s) (pass2Step s st x)).km q).prob_pit = 1
    by_cases hx : x = v
    · subst hx
      exact foldl_pp_one t (pass2Step_fires_pit hv hb hu)
    · have hmem' : v ∈ t := by
        rcases List.mem_cons.mp hmem with h | h
        · exact absurd h.symm hx
        · exact h
      have hsh := pass2Step_shape s st x
      exact ih hmem' (by rw [(hsh v).1]; exact hv) (by rw [(hsh v).2.1]; exact hb)
        (by rw [unknownNbrs_congr hsh]; exact hu)

theorem foldl_fires_wum {s : Nat} {st : Pass2State} {v q : Pos} {l : List Pos}
    (hmem : v ∈ l) (hv : (st.km v).visited = true)
    (hs : Percept.stench ∈ (st.km v).percepts) (hu : unknownNbrs s st.km v = [q]) :
    ((l.foldl (pass2Step s) st).km q).prob_wumpus = 1 := by
  induction l generalizing st with
  | nil => cases hmem
  | cons x t ih =>
    show ((t.foldl (pass2Step s) (pass2Step s st x)).km q).prob_wumpus = 1
    by_cases hx : x = v
    · subst hx
      exact foldl_pw_one t (pass2Step_fires_wum hv hs hu)
    · have hmem' : v ∈ t := by
        rcases List.mem_cons.mp hmem with h | h
        · exact absurd h.symm hx
        · exact h
      have hsh := pass2Step_shape s st x
      exact ih hmem' (by rw [(hsh v).1]; exact hv) (by rw [(hsh v).2.1]; exact hs)
        (by rw [unknownNbrs_congr hsh]; exact hu)

/-! ### Pass 1 and evidence application -/

theorem pass1_km (k : AgentKnowledge) (p : Pos) :
    (pass1 k).km p =
      if (0 ≤ p.1 ∧ p.1 < (k.size : Int) ∧ 0 ≤ p.2 ∧ p.2 < (k.size : Int)) ∧
          ¬(k.km p).visited = true ∧ ¬(k.km p).is_safe = true then
        { k.km p with prob_pit := 0, prob_wumpus := 0 }
      else k.km p := rfl

theorem pass1_shape (k : AgentKnowledge) : sameShape k.km (pass1 k).km := by
  intro p
  rw [pass1_km]
  split <;> exact ⟨rfl, rfl, rfl⟩

theorem pass1_visited_cell {k : AgentKnowledge} {p : Pos} (h : (k.km p).visited = true) :
    (pass1 k).km p = k.km p := by
  rw [pass1_km, if_neg]
  intro hc
  rw [h] at hc
  exact hc.2.1 rfl

theorem pass1_probs_zero {k : AgentKnowledge} {p : Pos}
    (hin : 0 ≤ p.1 ∧ p.1 < (k.size : Int) ∧ 0 ≤ p.2 ∧ p.2 < (k.size : Int))
    (hnv : (k.km p).visited = false) (hns : (k.km p).is_safe = false) :
    ((pass1 k).km p).prob_pit = 0 ∧ ((pass1 k).km p).prob_wumpus = 0 := by
  rw [pass1_km, if_pos ⟨hin, by rw [hnv]; simp, by rw [hns]; simp⟩]
  exact ⟨rfl, rfl⟩

theorem applyPit_def (km : Pos → Cell) (ev : List (Pos × ℚ)) (p : Pos) :
    applyPit km ev p =
      if contribsAt ev p ≠ [] ∧ (km p).prob_pit < 1 then
        { km p with prob_pit := max (km p).prob_pit (listMax (contribsAt ev p)) }
      else km p := rfl

theorem applyWum_def (km : Pos → Cell) (ev : List (Pos × ℚ)) (p : Pos) :
    applyWum km ev p =
      if contribsAt ev p ≠ [] ∧ (km p).prob_wumpus < 1 then
        { km p with prob_wumpus := max (km p).prob_wumpus (listMax (contribsAt ev p)) }
      else km p := rfl

theorem applyPit_shape (km : Pos → Cell) (ev : List (Pos × ℚ)) :
    sameShape km (applyPit km ev) := by
  intro p
  rw [applyPit_def]
  split <;> exact ⟨rfl, rfl, rfl⟩

theorem applyWum_shape (km : Pos → Cell) (ev : List (Pos × ℚ)) :
    sameShape km (applyWum km ev) := by
  intro p
  rw [applyWum_def]
  split <;> exact ⟨rfl, rfl, rfl⟩

theorem applyWum_pp (km : Pos → Cell) (ev : List (Pos × ℚ)) (p : Pos) :
    (applyWum km ev p).prob_pit = (km p).prob_pit := by
  rw [applyWum_def]
  split <;> rfl

theorem applyPit_pw (km : Pos → Cell) (ev : List (Pos × ℚ)) (p : Pos) :
    (applyPit km ev p).prob_wumpus = (km p).prob_wumpus := by
  rw [applyPit_def]
  split <;> rfl

theorem applyPit_pp_of_one {km : Pos → Cell} {p : Pos} (ev : List (Pos × ℚ))
    (h : (km p).prob_pit = 1) : (applyPit km ev p).prob_pit = 1 := by
  rw [applyPit_def, if_neg]
  · exact h
  · rw [h]
    simp

theorem applyWum_pw_of_one {km : Pos → Cell} {p : Pos} (ev : List (Pos × ℚ))
    (h : (km p).prob_wumpus = 1) : (applyWum km ev p).prob_wumpus = 1 := by
  rw [applyWum_def, if_neg]
  · exact h
  · rw [h]
    simp

theorem applyPit_pp_of_nil {km : Pos → Cell} {p : Pos} {ev : List (Pos × ℚ)}
    (h : contribsAt ev p = []) : (applyPit km ev p).prob_pit = (km p).prob_pit := by
  rw [applyPit_def, if_neg]
  rw [h]
  simp

theorem applyWum_pw_of_nil {km : Pos → Cell} {p : Pos} {ev : List (Pos × ℚ)}
    (h : contribsAt ev p = []) : (applyWum km ev p).prob_wumpus = (km p).prob_wumpus := by
  rw [applyWum_def, if_neg]
  rw [h]
  simp

/-! ### `update_probabilities` assembly -/

theorem up_km (k : AgentKnowledge) :
    (k.update_probabilities).km =
      applyWum (applyPit (pass2Final k).km (pass2Final k).pitEv) (pass2Final k).wumEv := rfl

theorem up_size (k : AgentKnowledge) : (k.update_probabilities).size = k.size := rfl

theorem pass2Final_km_shape (k : AgentKnowledge) : sameShape k.km (pass2Final k).km :=
  sameShape_trans (pass1_shape k)
    (foldl_pass2_shape k.size (gridPositions k.size) { km := (pass1 k).km, pitEv := [], wumEv := [] })

theorem up_shape (k : AgentKnowledge) : sameShape k.km (k.update_probabilities).km := by
  rw [up_km]
  exact sameShape_trans (pass2Final_km_shape k)
    (sameShape_trans (applyPit_shape _ _) (applyWum_shape _ _))

theorem pass2Final_pitEv (k : AgentKnowledge) :
    (pass2Final k).pitEv = pitBlocks k.size k.km (gridPositions k.size) := by
  unfold pass2Final
  rw [foldl_pitEv]
  simp only [List.nil_append]
  exact pitBlocks_congr (pass1_shape k) _ _

theorem pass2Final_wumEv (k : AgentKnowledge) :
    (pass2Final k).wumEv = wumBlocks k.size k.km (gridPositions k.size) := by
  unfold pass2Final
  rw [foldl_wumEv]
  simp only [List.nil_append]
  exact wumBlocks_congr (pass1_shape k) _ _

theorem up_elim_pit {k : AgentKnowledge} {v q : Pos} (hmem : v ∈ gridPositions k.size)
    (hv : (k.km v).visited = true) (hb : Percept.breeze ∈ (k.km v).percepts)
    (hu : unknownNbrs k.size k.km v = [q]) :
    ((k.update_probabilities).km q).prob_pit = 1 := by
  have hsh := pass1_shape k
  have hfold : ((pass2Final k).km q).prob_pit = 1 := by
    unfold pass2Final
    exact foldl_fires_pit hmem (by rw [(hsh v).1]; exact hv) (by rw [(hsh v).2.1]; exact hb)
      (by rw [show ({ km := (pass1 k).km, pitEv := [], wumEv := [] } : Pass2State).km = (pass1 k).km from rfl, unknownNbrs_congr hsh]; exact hu)
  rw [up_km]
  show (applyWum _ _ q).prob_pit = 1
  rw [applyWum_pp]
  exact applyPit_pp_of_one _ hfold

theorem up_elim_wum {k : AgentKnowledge} {v q : Pos} (hmem : v ∈ gridPositions k.size)
    (hv : (k.km v).visited = true) (hs : Percept.stench ∈ (k.km v).percepts)
    (hu : unknownNbrs k.size k.km v = [q]) :
    ((k.update_probabilities).km q).prob_wumpus = 1 := by
  have hsh := pass1_shape k
  have hfold : ((pass2Final k).km q).prob_wumpus = 1 := by
    unfold pass2Final
    exact foldl_fires_wum hmem (by rw [(hsh v).1]; exact hv) (by rw [(hsh v).2.1]; exact hs)
      (by rw [show ({ km := (pass1 k).km, pitEv := [], wumEv := [] } : Pass2State).km = (pass1 k).km from rfl, unknownNbrs_congr hsh]; exact hu)
  rw [up_km]
  exact applyWum_pw_of_one _ (by rw [applyPit_pw]; exact hfold)

/-! ### Claims C2 and C4 -/

/-- C2: if a cell `q` carries probability `1.0` for a hazard kind and the
originating visited cell `v` still holds the indicator percept with `q` as its
only not-proven-safe neighbor, then `update_probabilities()` re-derives the
certainty: afterwards the probability is still exactly `1.0` — and the
originating evidence itself is preserved by the call, so the argument applies
to every further call as well. -/
theorem claim2_certainty_monotonic (hz : Hazard) (k : AgentKnowledge) (v q : Pos)
    (hmem : v ∈ gridPositions k.size)
    (hv : (k.km v).visited = true)
    (hp : hz.indicator ∈ (k.km v).percepts)
    (hu : unknownNbrs k.size k.km v = [q])
    (hone : hz.prob (k.km q) = 1) :
    hz.prob ((k.update_probabilities).km q) = 1 ∧
    ((k.update_probabilities).km v).visited = true ∧
    hz.indicator ∈ ((k.update_probabilities).km v).percepts ∧
    unknownNbrs (k.update_probabilities).size (k.update_probabilities).km v = [q] := by
  have hsh := up_shape k
  refine ⟨?_, by rw [(hsh v).1]; exact hv, by rw [(hsh v).2.1]; exact hp,
    by rw [up_size, unknownNbrs_congr hsh]; exact hu⟩
  cases hz
  · exact up_elim_pit hmem hv hp hu
  · exact up_elim_wum hmem hv hp hu

theorem claim2_witness :
    Hazard.prob .pit (kElimDone.km (1, 0)) = 1 ∧
    unknownNbrs kElimDone.size kElimDone.km (0, 0) = [(1, 0)] ∧
    Hazard.prob .pit ((kElimDone.update_probabilities).km (1, 0)) = 1 :=
  ⟨by decide, by decide,
    (claim2_certainty_monotonic .pit kElimDone (0, 0) (1, 0) (by decide) (by decide)
      (by decide) (by decide) (by decide)).1⟩

/-- C4: if a visited cell `v` observes the indicator percept of a hazard kind
and exactly one of its 4-connected neighbors `q` is not yet proven safe, then
after `update_probabilities()` that neighbor carries probability exactly `1.0`
for the hazard and `is_safe = false`. -/
theorem claim4_elimination_determinism (hz : Hazard) (k : AgentKnowledge) (v q : Pos)
    (hmem : v ∈ gridPositions k.size)
    (hv : (k.km v).visited = true)
    (hp : hz.indicator ∈ (k.km v).percepts)
    (hu : unknownNbrs k.size k.km v = [q]) :
    hz.prob ((k.update_probabilities).km q) = 1 ∧
    ((k.update_probabilities).km q).is_safe = false := by
  constructor
  · cases hz
    · exact up_elim_pit hmem hv hp hu
    · exact up_elim_wum hmem hv hp hu
  · have hsh := up_shape k
    rw [(hsh q).2.2]
    exact mem_unknownNbrs_unsafe (by rw [hu]; exact List.mem_singleton_self q)

theorem claim4_witness :
    unknownNbrs kElim.size kElim.km (0, 0) = [(1, 0)] ∧
    (Hazard.prob .pit ((kElim.update_probabilities).km (1, 0)) = 1 ∧
      ((kElim.update_probabilities).km (1, 0)).is_safe = false) :=
  ⟨by decide,
    claim4_elimination_determinism .pit kElim (0, 0) (1, 0) (by decide) (by decide)
      (by decide) (by decide)⟩

/-! ### `update_percepts` lemmas -/

theorem upd_percepts_km (k : AgentKnowledge) (r c : Int) (ps : List Percept) :
    (k.update_percepts r c ps).km =
      if Percept.breeze ∉ ps ∧ Percept.stench ∉ ps then
        (getNeighbors k.size (r, c)).foldl safeNbrStep
          (updateCell k.km (r, c) (fun cell => { cell with visited := true, percepts := ps, is_safe := true, prob_pit := 0, prob_wumpus := 0 }))
      else
        updateCell k.km (r, c) (fun cell => { cell with visited := true, percepts := ps, is_safe := true, prob_pit := 0, prob_wumpus := 0 }) := rfl

theorem upd_percepts_size (k : AgentKnowledge) (r c : Int) (ps : List Percept) :
    (k.update_percepts r c ps).size = k.size := rfl

theorem safeNbrStep_other {m : Pos → Cell} {x q : Pos} (h : q ≠ x) :
    safeNbrStep m x q = m q := by
  unfold safeNbrStep
  split
  · rfl
  · exact updateCell_other _ _ _ h

theorem safeNbrStep_visited (m : Pos → Cell) (x p : Pos) :
    (safeNbrStep m x p).visited = (m p).visited := by
  unfold safeNbrStep
  split
  · rfl
  · by_cases hp : p = x
    · subst hp; rw [updateCell_self]
    · rw [updateCell_other _ _ _ hp]

theorem safeNbrStep_safe_mono {m : Pos → Cell} {p : Pos} (x : Pos)
    (h : (m p).is_safe = true) : (safeNbrStep m x p).is_safe = true := by
  unfold safeNbrStep
  split
  · exact h
  · by_cases hp : p = x
    · subst hp; rw [updateCell_self]
    · rw [updateCell_other _ _ _ hp]; exact h

theorem nbrFold_safe_mono {m : Pos → Cell} {p : Pos} (l : List Pos)
    (h : (m p).is_safe = true) : ((l.foldl safeNbrStep m) p).is_safe = true := by
  induction l generalizing m with
  | nil => exact h
  | cons x t ih => exact ih (safeNbrStep_safe_mono x h)

theorem nbrFold_keeps {m : Pos → Cell} {q : Pos} (l : List Pos)
    (h : (m q).is_safe = true ∧ (m q).prob_pit = 0 ∧ (m q).prob_wumpus = 0) :
    ((l.foldl safeNbrStep m) q).is_safe = true ∧
    ((l.foldl safeNbrStep m) q).prob_pit = 0 ∧
    ((l.foldl safeNbrStep m) q).prob_wumpus = 0 := by
  induction l generalizing m with
  | nil => exact h
  | cons x t ih =>
    show ((t.foldl safeNbrStep (safeNbrStep m x)) q).is_safe = true ∧
      ((t.foldl safeNbrStep (safeNbrStep m x)) q).prob_pit = 0 ∧
      ((t.foldl safeNbrStep (safeNbrStep m x)) q).prob_wumpus = 0
    apply ih
    by_cases hq : q = x
    · subst hq
      unfold safeNbrStep
      split
      · exact h
      · rw [updateCell_self]
        exact ⟨rfl, rfl, rfl⟩
    · rw [safeNbrStep_other hq]
      exact h

theorem nbrFold_sets {m : Pos → Cell} {q : Pos} (l : List Pos) (hq : q ∈ l)
    (hnv : (m q).visited = false) :
    ((l.foldl safeNbrStep m) q).is_safe = true ∧
    ((l.foldl safeNbrStep m) q).prob_pit = 0 ∧
    ((l.foldl safeNbrStep m) q).prob_wumpus = 0 := by
  induction l generalizing m with
  | nil => cases hq
  | cons x t ih =>
    show ((t.foldl safeNbrStep (safeNbrStep m x)) q).is_safe = true ∧
      ((t.foldl safeNbrStep (safeNbrStep m x)) q).prob_pit = 0 ∧
      ((t.foldl safeNbrStep (safeNbrStep m x)) q).prob_wumpus = 0
    by_cases hx : q = x
    · subst hx
      apply nbrFold_keeps
      unfold safeNbrStep
      rw [if_neg (by rw [hnv]; simp), updateCell_self]
      exact ⟨rfl, rfl, rfl⟩
    · have hq' : q ∈ t := by
        rcases List.mem_cons.mp hq with h | h
        · exact absurd h hx
        · exact h
      exact ih hq' (by rw [safeNbrStep_other hx]; exact hnv)

/-! ### Claims C5 and C10 -/

/-- C5: after `update_percepts(p, percepts)` with a percept set containing
neither the Breeze nor the Stench indicator, every in-bounds 4-connected
neighbor of `p` that was not yet visited is proven safe with both
probabilities `0.0`. -/
theorem claim5_safety_propagation (k : AgentKnowledge) (r c : Int) (ps : List Percept)
    (q : Pos) (hb : Percept.breeze ∉ ps) (hs : Percept.stench ∉ ps)
    (hq : q ∈ getNeighbors k.size (r, c)) (hnv : (k.km q).visited = false) :
    ((k.update_percepts r c ps).km q).is_safe = true ∧
    ((k.update_percepts r c ps).km q).prob_pit = 0 ∧
    ((k.update_percepts r c ps).km q).prob_wumpus = 0 := by
  rw [upd_percepts_km, if_pos ⟨hb, hs⟩]
  refine nbrFold_sets _ hq ?_
  rw [updateCell_other _ _ _ (mem_getNeighbors_ne hq)]
  exact hnv

theorem claim5_witness :
    (0, 1) ∈ getNeighbors (AgentKnowledge.init 2 (0, 0)).size (0, 0) ∧
    ((((AgentKnowledge.init 2 (0, 0)).update_percepts 0 0 []).km (0, 1)).is_safe = true ∧
      (((AgentKnowledge.init 2 (0, 0)).update_percepts 0 0 []).km (0, 1)).prob_pit = 0 ∧
      (((AgentKnowledge.init 2 (0, 0)).update_percepts 0 0 []).km (0, 1)).prob_wumpus = 0) :=
  ⟨by decide,
    claim5_safety_propagation (AgentKnowledge.init 2 (0, 0)) 0 0 [] (0, 1)
      (by decide) (by decide) (by decide) (by decide)⟩

/-- C10: a proven-safe verdict is never revoked: if a cell has `is_safe =
true`, it still has it after any `update_percepts` call and after any
`update_probabilities` call. -/
theorem claim10_safe_never_revoked (k : AgentKnowledge) (p : Pos) (r c : Int)
    (ps : List Percept) :
    ((k.km p).is_safe = true → ((k.update_percepts r c ps).km p).is_safe = true) ∧
    ((k.km p).is_safe = true → ((k.update_probabilities).km p).is_safe = true) := by
  constructor
  · intro h
    have hbase : ∀ f : Cell → Cell,
        (updateCell k.km (r, c) (fun cell => { cell with visited := true, percepts := ps, is_safe := true, prob_pit := 0, prob_wumpus := 0 }) p).is_safe = true := by
      intro _
      by_cases hp : p = (r, c)
      · subst hp; rw [updateCell_self]
      · rw [updateCell_other _ _ _ hp]; exact h
    rw [upd_percepts_km]
    split
    · exact nbrFold_safe_mono _ (hbase id)
    · exact hbase id
  · intro h
    rw [((up_shape k) p).2.2]
    exact h

theorem claim10_witness :
    ((AgentKnowledge.init 2 (0, 0)).km (0, 0)).is_safe = true ∧
    (((AgentKnowledge.init 2 (0, 0)).update_percepts 0 1 [Percept.breeze]).km (0, 0)).is_safe = true ∧
    (((AgentKnowledge.init 2 (0, 0)).update_probabilities).km (0, 0)).is_safe = true :=
  ⟨by decide,
    (claim10_safe_never_revoked (AgentKnowledge.init 2 (0, 0)) (0, 0) 0 1
      [Percept.breeze]).1 (by decide),
    (claim10_safe_never_revoked (AgentKnowledge.init 2 (0, 0)) (0, 0) 0 1
      [Percept.breeze]).2 (by decide)⟩

/-! ### The visited invariant (C6) -/

theorem nbrFold_visited (l : List Pos) (m : Pos → Cell) (p : Pos) :
    ((l.foldl safeNbrStep m) p).visited = (m p).visited := by
  induction l generalizing m with
  | nil => rfl
  | cons x t ih =>
    show ((t.foldl safeNbrStep (safeNbrStep m x)) p).visited = _
    rw [ih, safeNbrStep_visited]

theorem nbrFold_visited_cell {m : Pos → Cell} {p : Pos} (l : List Pos)
    (h : (m p).visited = true) : (l.foldl safeNbrStep m) p = m p := by
  induction l generalizing m with
  | nil => rfl
  | cons x t ih =>
    show (t.foldl safeNbrStep (safeNbrStep m x)) p = _
    have hstep : safeNbrStep m x p = m p := by
      by_cases hp : p = x
      · subst hp
        unfold safeNbrStep
        rw [if_pos h]
      · exact safeNbrStep_other hp
    rw [ih (by rw [hstep]; exact h), hstep]

theorem visitedOK_init (size : Nat) (start : Pos) : visitedOK (AgentKnowledge.init size start) := by
  intro p h
  revert h
  show (if p = start then { Cell.init with is_safe := true } else Cell.init).visited = true → _
  split <;> (intro h; cases h)

theorem visitedOK_percepts {k : AgentKnowledge} (h : visitedOK k) (r c : Int)
    (ps : List Percept) : visitedOK (k.update_percepts r c ps) := by
  intro p
  rw [upd_percepts_km]
  have hbase : ∀ hp : ((updateCell k.km (r, c) (fun cell => { cell with visited := true, percepts := ps, is_safe := true, prob_pit := 0, prob_wumpus := 0 })) p).visited = true,
      ((updateCell k.km (r, c) (fun cell => { cell with visited := true, percepts := ps, is_safe := true, prob_pit := 0, prob_wumpus := 0 })) p).is_safe = true ∧
      ((updateCell k.km (r, c) (fun cell => { cell with visited := true, percepts := ps, is_safe := true, prob_pit := 0, prob_wumpus := 0 })) p).prob_pit = 0 ∧
      ((updateCell k.km (r, c) (fun cell => { cell with visited := true, percepts := ps, is_safe := true, prob_pit := 0, prob_wumpus := 0 })) p).prob_wumpus = 0 := by
    intro hp
    by_cases hpc : p = (r, c)
    · subst hpc
      rw [updateCell_self]
      exact ⟨rfl, rfl, rfl⟩
    · rw [updateCell_other _ _ _ hpc] at hp ⊢
      exact h p hp
  split
  · intro hp
    rw [nbrFold_visited] at hp
    rw [nbrFold_visited_cell _ hp]
    exact hbase hp
  · exact hbase

theorem visitedOK_recompute {k : AgentKnowledge} (h : visitedOK k) :
    visitedOK k.update_probabilities := by
  intro p hp
  have hsh := up_shape k
  have hv : (k.km p).visited = true := by rw [← (hsh p).1]; exact hp
  obtain ⟨hs, hpp, hpw⟩ := h p hv
  have h1 : (pass1 k).km p = k.km p := pass1_visited_cell hv
  have hfold : (pass2Final k).km p = k.km p := by
    unfold pass2Final
    rw [foldl_safe_cell _ (by rw [show ({ km := (pass1 k).km, pitEv := [], wumEv := [] } : Pass2State).km = (pass1 k).km from rfl, h1]; exact hs)]
    exact h1
  refine ⟨by rw [(hsh p).2.2]; exact hs, ?_, ?_⟩
  · rw [up_km]
    show (applyWum _ _ p).prob_pit = 0
    rw [applyWum_pp, applyPit_pp_of_nil, hfold]
    · exact hpp
    · rw [pass2Final_pitEv]
      exact contribsAt_pit_nil_of_safe hs
  · rw [up_km]
    rw [applyWum_pw_of_nil, applyPit_pw, hfold]
    · exact hpw
    · rw [pass2Final_wumEv]
      exact contribsAt_wum_nil_of_safe hs

theorem visitedOK_runOps {k : AgentKnowledge} (h : visitedOK k) (ops : List Op) :
    visitedOK (runOps k ops) := by
  induction ops generalizing k with
  | nil => exact h
  | cons op t ih =>
    show visitedOK (runOps (applyOp k op) t)
    apply ih
    cases op with
    | perceive r c ps => exact visitedOK_percepts h r c ps
    | recompute => exact visitedOK_recompute h

/-- C6: after any sequence of `update_percepts` (at the agent's in-bounds
position, as the application calls it) and `update_probabilities` calls
starting from a fresh knowledge base, every visited cell has `is_safe = true`
and both probabilities exactly `0.0`. -/
theorem claim6_visited_invariant (size : Nat) (start : Pos) (ops : List Op)
    (_hops : ∀ op ∈ ops, Op.inBounds size op) (p : Pos)
    (hvis : ((runOps (AgentKnowledge.init size start) ops).km p).visited = true) :
    ((runOps (AgentKnowledge.init size start) ops).km p).is_safe = true ∧
    ((runOps (AgentKnowledge.init size start) ops).km p).prob_pit = 0 ∧
    ((runOps (AgentKnowledge.init size start) ops).km p).prob_wumpus = 0 :=
  visitedOK_runOps (visitedOK_init size start) ops p hvis

theorem claim6_witness :
    ((runOps (AgentKnowledge.init 2 (0, 0)) [Op.perceive 0 0 [], Op.recompute]).km (0, 0)).visited = true ∧
    (((runOps (AgentKnowledge.init 2 (0, 0)) [Op.perceive 0 0 [], Op.recompute]).km (0, 0)).is_safe = true ∧
      ((runOps (AgentKnowledge.init 2 (0, 0)) [Op.perceive 0 0 [], Op.recompute]).km (0, 0)).prob_pit = 0 ∧
      ((runOps (AgentKnowledge.init 2 (0, 0)) [Op.perceive 0 0 [], Op.recompute]).km (0, 0)).prob_wumpus = 0) :=
  ⟨by decide,
    claim6_visited_invariant 2 (0, 0) [Op.perceive 0 0 [], Op.recompute]
      (by
        intro op hop
        rcases List.mem_cons.mp hop with rfl | hop
        · exact ⟨by decide, by decide, by decide, by decide⟩
        rcases List.mem_cons.mp hop with rfl | hop
        · trivial
        · cases hop)
      (0, 0) (by decide)⟩

/-! ### Distributed evidence (C7) -/

theorem gridPositions_nodup (s : Nat) : (gridPositions s).Nodup := by
  unfold gridPositions
  rw [List.nodup_flatMap]
  constructor
  · intro r _
    have hinj : Function.Injective (fun (c : Nat) => ((r : Int), (c : Int))) := by
      intro a b h
      have h2 : (a : Int) = (b : Int) := congrArg Prod.snd h
      exact_mod_cast h2
    exact List.Nodup.map hinj (List.nodup_range s)
  · apply List.Pairwise.imp _ (List.nodup_range s)
    intro r1 r2 hne x h1 h2
    obtain ⟨c1, _, rfl⟩ := List.mem_map.mp h1
    obtain ⟨c2, _, he⟩ := List.mem_map.mp h2
    have := congrArg Prod.fst he
    simp only at this
    exact hne (by exact_mod_cast this.symm)

theorem contribsAt_append (a b : List (Pos × ℚ)) (q : Pos) :
    contribsAt (a ++ b) q = contribsAt a q ++ contribsAt b q := by
  simp [contribsAt, List.filter_append]

theorem contribsAt_nil_of_keys {ev : List (Pos × ℚ)} {q : Pos}
    (h : ∀ e ∈ ev, e.1 ≠ q) : contribsAt ev q = [] := by
  unfold contribsAt
  rw [List.filter_eq_nil_iff.mpr, List.map_nil]
  intro e he
  simpa using h e he

theorem contribsAt_cons (e : Pos × ℚ) (ev : List (Pos × ℚ)) (q : Pos) :
    contribsAt (e :: ev) q =
      if e.1 = q then e.2 :: contribsAt ev q else contribsAt ev q := by
  unfold contribsAt
  by_cases h : e.1 = q
  · rw [List.filter_cons_of_pos (by simpa using h), List.map_cons, if_pos h]
  · rw [List.filter_cons_of_neg (by simpa using h), if_neg h]

theorem contribs_map_const_mem {u : List Pos} {q : Pos} (a : ℚ) (hnd : u.Nodup)
    (hq : q ∈ u) : contribsAt (u.map (fun x => (x, a))) q = [a] := by
  induction u with
  | nil => cases hq
  | cons x t ih =>
    rw [List.map_cons, contribsAt_cons]
    by_cases hx : x = q
    · subst hx
      rw [if_pos rfl]
      have hnotin : x ∉ t := (List.nodup_cons.mp hnd).1
      rw [contribsAt_nil_of_keys]
      intro e he
      obtain ⟨y, hy, rfl⟩ := List.mem_map.mp he
      intro hkey
      exact hnotin (by rw [← hkey]; exact hy)
    · rw [if_neg (by simpa using hx)]
      have hq' : q ∈ t := by
        rcases List.mem_cons.mp hq with h | h
        · exact absurd h.symm hx
        · exact h
      exact ih (List.nodup_cons.mp hnd).2 hq'

theorem contribs_pitBlock_not_source {s : Nat} {km : Pos → Cell} {w q : Pos}
    (h : ¬((km w).visited = true ∧ Percept.breeze ∈ (km w).percepts ∧
      q ∈ unknownNbrs s km w)) : contribsAt (pitBlock s km w) q = [] := by
  apply contribsAt_nil_of_keys
  intro e he hkey
  have hm := mem_pitBlock he
  exact h ⟨hm.1, hm.2.1, by rw [← hkey]; exact hm.2.2.2.1⟩

theorem contribs_pitBlock_source {s : Nat} {km : Pos → Cell} {v q : Pos}
    (hv : (km v).visited = true) (hb : Percept.breeze ∈ (km v).percepts)
    (hlen : 1 < (unknownNbrs s km v).length) (hq : q ∈ unknownNbrs s km v) :
    contribsAt (pitBlock s km v) q = [1 / ((unknownNbrs s km v).length : ℚ)] := by
  unfold pitBlock
  rw [if_pos ⟨hv, hb⟩, if_pos hlen]
  exact contribs_map_const_mem _ (unknownNbrs_nodup s km v) hq

theorem contribs_pitBlocks_nil {s : Nat} {km : Pos → Cell} {l : List Pos} {q : Pos}
    (h : ∀ w ∈ l, contribsAt (pitBlock s km w) q = []) :
    contribsAt (pitBlocks s km l) q = [] := by
  induction l with
  | nil => rfl
  | cons x t ih =>
    rw [pitBlocks_cons, contribsAt_append, h x (List.mem_cons_self x t), List.nil_append]
    exact ih (fun w hw => h w (List.mem_cons_of_mem x hw))

theorem contribs_pitBlocks_single {s : Nat} {km : Pos → Cell} {l : List Pos} {v q : Pos}
    (hmem : v ∈ l) (hnd : l.Nodup)
    (hothers : ∀ w ∈ l, w ≠ v → contribsAt (pitBlock s km w) q = []) :
    contribsAt (pitBlocks s km l) q = contribsAt (pitBlock s km v) q := by
  induction l with
  | nil => cases hmem
  | cons x t ih =>
    rw [pitBlocks_cons, contribsAt_append]
    by_cases hx : x = v
    · subst hx
      have htail : contribsAt (pitBlocks s km t) q = [] := by
        apply contribs_pitBlocks_nil
        intro w hw
        exact hothers w (List.mem_cons_of_mem x hw)
          (fun hwv => (List.nodup_cons.mp hnd).1 (hwv ▸ hw))
      rw [htail, List.append_nil]
    · have hmem' : v ∈ t := by
        rcases List.mem_cons.mp hmem with h | h
        · exact absurd h.symm hx
        · exact h
      rw [hothers x (List.mem_cons_self x t) hx, List.nil_append]
      exact ih hmem' (List.nodup_cons.mp hnd).2
        (fun w hw hwv => hothers w (List.mem_cons_of_mem x hw) hwv)

theorem mem_pitBlocks_intro {s : Nat} {km : Pos → Cell} {l : List Pos} {w : Pos}
    {e : Pos × ℚ} (hw : w ∈ l) (he : e ∈ pitBlock s km w) : e ∈ pitBlocks s km l := by
  unfold pitBlocks
  exact List.mem_flatten.mpr ⟨pitBlock s km w, List.mem_map_of_mem _ hw, he⟩

theorem contribs_nonneg {s : Nat} {km : Pos → Cell} {l : List Pos} {q : Pos} {x : ℚ}
    (hx : x ∈ contribsAt (pitBlocks s km l) q) : 0 ≤ x := by
  have hmem := mem_contribsAt.mp hx
  obtain ⟨w, _, hew⟩ := mem_pitBlocks hmem
  have := (mem_pitBlock hew).2.2.2.2
  simp only at this
  rw [this]
  positivity

/-- C7: if a visited cell `v` observes a Breeze with `k > 1` not-proven-safe
neighbors, then after `update_probabilities()` each of those neighbors has
`prob_pit ≥ 1/k`; evidence from several sources is combined by maximum (the
probability equals the maximum of the collected contributions whenever no
elimination targets the cell), and it equals `1/k` exactly when `v` is the
only evidence source touching the neighbor. -/
theorem claim7_distributed_evidence (k : AgentKnowledge) (v q : Pos)
    (hmem : v ∈ gridPositions k.size)
    (hv : (k.km v).visited = true)
    (hb : Percept.breeze ∈ (k.km v).percepts)
    (hq : q ∈ unknownNbrs k.size k.km v)
    (hlen : 1 < (unknownNbrs k.size k.km v).length) :
    (1 : ℚ) / ((unknownNbrs k.size k.km v).length : ℚ) ≤
      ((k.update_probabilities).km q).prob_pit ∧
    ((k.km q).visited = false ∧ (∀ w ∈ gridPositions k.size, ¬elimPitCond k.size k.km w q) →
      ((k.update_probabilities).km q).prob_pit =
        listMax (contribsAt (pitBlocks k.size k.km (gridPositions k.size)) q)) ∧
    ((k.km q).visited = false ∧
      (∀ w ∈ gridPositions k.size, w ≠ v →
        ¬((k.km w).visited = true ∧ Percept.breeze ∈ (k.km w).percepts ∧
          q ∈ unknownNbrs k.size k.km w)) →
      ((k.update_probabilities).km q).prob_pit =
        1 / ((unknownNbrs k.size k.km v).length : ℚ)) := by
  have hqs : (k.km q).is_safe = false := mem_unknownNbrs_unsafe hq
  have hLpos : (0 : ℚ) < ((unknownNbrs k.size k.km v).length : ℚ) := by
    exact_mod_cast Nat.lt_of_lt_of_le Nat.zero_lt_one hlen.le
  have hL1 : (1 : ℚ) ≤ ((unknownNbrs k.size k.km v).length : ℚ) := by
    exact_mod_cast hlen.le
  have hdiv1 : (1 : ℚ) / ((unknownNbrs k.size k.km v).length : ℚ) ≤ 1 :=
    (div_le_one hLpos).mpr hL1
  have hev : (pass2Final k).pitEv = pitBlocks k.size k.km (gridPositions k.size) :=
    pass2Final_pitEv k
  have hkey : (q, 1 / ((unknownNbrs k.size k.km v).length : ℚ)) ∈
      pitBlocks k.size k.km (gridPositions k.size) := by
    apply mem_pitBlocks_intro hmem
    unfold pitBlock
    rw [if_pos ⟨hv, hb⟩, if_pos hlen]
    exact List.mem_map_of_mem _ hq
  have hmemc : 1 / ((unknownNbrs k.size k.km v).length : ℚ) ∈
      contribsAt (pitBlocks k.size k.km (gridPositions k.size)) q :=
    mem_contribsAt.mpr hkey
  have hfinal : ∀ x : Pos, ((k.update_probabilities).km x).prob_pit =
      (applyPit (pass2Final k).km (pass2Final k).pitEv x).prob_pit := by
    intro x
    rw [up_km]
    exact applyWum_pp _ _ x
  refine ⟨?_, ?_, ?_⟩
  · rw [hfinal, applyPit_def]
    split
    · exact le_trans (le_trans (le_listMax_of_mem (by rw [hev]; exact hmemc))
        (le_max_right _ _)) (le_refl _)
    · rename_i hng
      have hne : contribsAt (pass2Final k).pitEv q ≠ [] := by
        rw [hev]
        exact List.ne_nil_of_mem hmemc
      have hge : (1 : ℚ) ≤ ((pass2Final k).km q).prob_pit := by
        by_contra hlt
        exact hng ⟨hne, lt_of_not_ge hlt⟩
      exact le_trans hdiv1 hge
  · rintro ⟨hnv, helim⟩
    have hbq := mem_getNeighbors_bounds (mem_unknownNbrs_nbr hq)
    have h0 : ((pass2Final k).km q).prob_pit = 0 := by
      unfold pass2Final
      rw [foldl_pp_untouched]
      · exact (pass1_probs_zero hbq hnv hqs).1
      · intro w hw
        rw [show ({ km := (pass1 k).km, pitEv := [], wumEv := [] } : Pass2State).km = (pass1 k).km from rfl,
          elimPitCond_congr (pass1_shape k)]
        exact helim w hw
    rw [hfinal, applyPit_def, hev]
    by_cases hcs : contribsAt (pitBlocks k.size k.km (gridPositions k.size)) q = []
    · rw [if_neg (by rw [hcs]; simp), h0, hcs]
      rfl
    · rw [if_pos ⟨hcs, by rw [h0]; exact zero_lt_one⟩, h0]
      exact max_eq_right (listMax_nonneg hcs (fun x hx => contribs_nonneg hx))
  · rintro ⟨hnv, hsole⟩
    have helim : ∀ w ∈ gridPositions k.size, ¬elimPitCond k.size k.km w q := by
      intro w hw hcond
      by_cases hwv : w = v
      · subst hwv
        rw [hcond.2.2] at hlen
        exact absurd hlen (by simp)
      · exact hsole w hw hwv ⟨hcond.1, hcond.2.1, by rw [hcond.2.2]; exact List.mem_singleton_self q⟩
    have hbq := mem_getNeighbors_bounds (mem_unknownNbrs_nbr hq)
    have h0 : ((pass2Final k).km q).prob_pit = 0 := by
      unfold pass2Final
      rw [foldl_pp_untouched]
      · exact (pass1_probs_zero hbq hnv hqs).1
      · intro w hw
        rw [show ({ km := (pass1 k).km, pitEv := [], wumEv := [] } : Pass2State).km = (pass1 k).km from rfl,
          elimPitCond_congr (pass1_shape k)]
        exact helim w hw
    have hsingle : contribsAt (pitBlocks k.size k.km (gridPositions k.size)) q =
        [1 / ((unknownNbrs k.size k.km v).length : ℚ)] := by
      rw [contribs_pitBlocks_single hmem (gridPositions_nodup k.size)
        (fun w hw hwv => contribs_pitBlock_not_source (hsole w hw hwv))]
      exact contribs_pitBlock_source hv hb hlen hq
    rw [hfinal, applyPit_def, hev, hsingle]
    rw [if_pos ⟨by simp, by rw [h0]; exact zero_lt_one⟩, h0, listMax_singleton]
    exact max_eq_right (le_of_lt (by positivity))

theorem claim7_witness :
    (0, 1) ∈ unknownNbrs kDist.size kDist.km (0, 0) ∧
    (unknownNbrs kDist.size kDist.km (0, 0)).length = 2 ∧
    (1 : ℚ) / 2 ≤ ((kDist.update_probabilities).km (0, 1)).prob_pit ∧
    ((kDist.update_probabilities).km (0, 1)).prob_pit = 1 / 2 := by
  refine ⟨by decide, by decide, ?_, ?_⟩
  · have h := (claim7_distributed_evidence kDist (0, 0) (0, 1) (by decide) (by decide)
      (by decide) (by decide) (by decide)).1
    simpa using h
  · have h := (claim7_distributed_evidence kDist (0, 0) (0, 1) (by decide) (by decide)
      (by decide) (by decide) (by decide)).2.2 ⟨by decide, by decide⟩
    simpa using h

/-! ### Queries (C3 and C8) -/

/-- C3 counterexample: on a cell that is both visited and at `prob_pit = 1.0`
(never reachable through the public calls but exercising the stated branch
order), `query` reports `SAFE (VISITED)` — the visited case overrides the
danger case, not the other way around as the claim asserts. -/
theorem claim3_counterexample :
    (kQbad.km (0, 0)).prob_pit ≥ 1 ∧
    ((kQbad.query 0 0).1).status = "SAFE (VISITED)" ∧
    ((kQbad.query 0 0).1).status ≠ "DEFINITELY DANGEROUS" := by decide

/-- C3 (amended): for in-bounds coordinates the status is computed with the
visited check taking precedence: `SAFE (VISITED)` if visited; otherwise
`DEFINITELY DANGEROUS` if either probability is `≥ 1.0` (this check does
precede the `is_safe` case); else `SAFE` if `is_safe`; else `UNKNOWN`. -/
theorem claim3_amended (k : AgentKnowledge) (r c : Int)
    (h : 0 ≤ r ∧ r < (k.size : Int) ∧ 0 ≤ c ∧ c < (k.size : Int)) :
    ((k.query r c).1).status =
      (if (k.km (r, c)).visited = true then "SAFE (VISITED)"
       else if (k.km (r, c)).prob_pit ≥ 1 ∨ (k.km (r, c)).prob_wumpus ≥ 1 then
         "DEFINITELY DANGEROUS"
       else if (k.km (r, c)).is_safe = true then "SAFE"
       else "UNKNOWN") := by
  unfold AgentKnowledge.query
  rw [if_neg (by simpa using h)]
  rfl

theorem claim3_amended_witness :
    ((0 : Int) ≤ 0 ∧ (0 : Int) < (kElim.size : Int) ∧ (0 : Int) ≤ 0 ∧ (0 : Int) < (kElim.size : Int)) ∧
    ((kElim.query 0 0).1).status =
      (if (kElim.km (0, 0)).visited = true then "SAFE (VISITED)"
       else if (kElim.km (0, 0)).prob_pit ≥ 1 ∨ (kElim.km (0, 0)).prob_wumpus ≥ 1 then
         "DEFINITELY DANGEROUS"
       else if (kElim.km (0, 0)).is_safe = true then "SAFE"
       else "UNKNOWN") :=
  ⟨by decide, claim3_amended kElim 0 0 (by decide)⟩

/-- C8: `query` on any out-of-bounds coordinate pair returns exactly the
structured error result and hands back the knowledge base unchanged. -/
theorem claim8_query_bounds (k : AgentKnowledge) (r c : Int)
    (h : ¬(0 ≤ r ∧ r < (k.size : Int) ∧ 0 ≤ c ∧ c < (k.size : Int))) :
    k.query r c = (.err "Invalid Chamber Coordinates.", k) := by
  unfold AgentKnowledge.query
  rw [if_pos h]

theorem claim8_witness :
    ¬((0 : Int) ≤ -1 ∧ (-1 : Int) < (kQbad.size : Int) ∧ (0 : Int) ≤ 0 ∧ (0 : Int) < (kQbad.size : Int)) ∧
    kQbad.query (-1) 0 = (.err "Invalid Chamber Coordinates.", kQbad) :=
  ⟨by decide, claim8_query_bounds kQbad (-1) 0 (by decide)⟩

/-! ### Movement (C1 and C9) -/

/-- C1 counterexample: an unresolvable direction string is not rejected.  On
an active agent it maps to the delta `(0, 0)`; the destination is the current
in-bounds cell, so the move is committed: `success = true` and the move
counter increments, contradicting the claimed `success = false` with no state
mutation. -/
theorem claim1_counterexample :
    a0.alive = true ∧ a0.moves_made < a0.max_moves ∧ dirDelta "fly" = (0, 0) ∧
    (a0.move "fly").1.1 = true ∧ (a0.move "fly").2.moves_made = a0.moves_made + 1 := by
  refine ⟨rfl, by decide, by decide, by decide, by decide⟩

/-- C1 (amended): in both `move` variants a direction that does not resolve
yields delta `(0, 0)`; the destination equals the current cell, which passes
the bounds check, so on an active, non-terminal cell the call succeeds:
`success = true`, the move counter increments, and position and alive flag are
unchanged (the cell's percepts are simply re-observed). -/
theorem claim1_amended :
    (∀ (a : WumpusAgent) (d : String), a.alive = true → a.moves_made < a.max_moves →
      a.world.is_paradise (a.r, a.c) = false → dirDelta d = (0, 0) →
      (0 ≤ a.r ∧ a.r < (a.world.size : Int) ∧ 0 ≤ a.c ∧ a.c < (a.world.size : Int)) →
      a.world.is_deadly (a.r, a.c) = false →
      (a.move d).1.1 = true ∧ (a.move d).2.r = a.r ∧ (a.move d).2.c = a.c ∧
        (a.move d).2.moves_made = a.moves_made + 1 ∧ (a.move d).2.alive = true) ∧
    (∀ (a : AppAgent) (d : String), a.alive = true → a.moves_made < a.max_moves →
      dirDelta d = (0, 0) →
      (0 ≤ a.r ∧ a.r < (a.world.size : Int) ∧ 0 ≤ a.c ∧ a.c < (a.world.size : Int)) →
      a.world.is_terminal (a.r, a.c) = false →
      (a.move d).1.1 = true ∧ (a.move d).2.r = a.r ∧ (a.move d).2.c = a.c ∧
        (a.move d).2.moves_made = a.moves_made + 1 ∧ (a.move d).2.alive = true) := by
  constructor
  · intro a d h1 h2 h3 h4 h5 h6
    simp only [WumpusAgent.move, h4]
    rw [if_neg (by rw [h1]; simp; omega)]
    rw [if_neg (by rw [h3]; simp)]
    simp only [add_zero]
    rw [if_neg (by simpa using h5)]
    rw [if_neg (by simpa using h6)]
    rw [if_neg (by rw [h3]; simp)]
    exact ⟨rfl, rfl, rfl, rfl, h1⟩
  · intro a d h1 h2 h4 h5 h6
    simp only [AppAgent.move, h4]
    rw [if_neg (by rw [h1]; simp; omega)]
    simp only [add_zero]
    rw [if_neg (by simpa using h5)]
    rw [if_neg (by simpa using h6)]
    exact ⟨rfl, rfl, rfl, rfl, h1⟩

theorem claim1_amended_witness :
    dirDelta "sideways" = (0, 0) ∧
    ((a0.move "sideways").1.1 = true ∧ (a0.move "sideways").2.r = a0.r ∧
      (a0.move "sideways").2.c = a0.c ∧
      (a0.move "sideways").2.moves_made = a0.moves_made + 1 ∧
      (a0.move "sideways").2.alive = true) ∧
    ((appA0.move "sideways").1.1 = true ∧ (appA0.move "sideways").2.r = appA0.r ∧
      (appA0.move "sideways").2.c = appA0.c ∧
      (appA0.move "sideways").2.moves_made = appA0.moves_made + 1 ∧
      (appA0.move "sideways").2.alive = true) :=
  ⟨by decide,
    claim1_amended.1 a0 "sideways" rfl (by decide) (by decide) (by decide) (by decide)
      (by decide),
    claim1_amended.2 appA0 "sideways" rfl (by decide) (by decide) (by decide) (by decide)⟩

theorem move_dead (a : WumpusAgent) (h : a.alive = false) (d : String) :
    a.move d = ((false, "Simulation Ended."), a) := by
  unfold WumpusAgent.move
  rw [if_pos (Or.inl (by rw [h]; simp))]

theorem runMoves_dead (a : WumpusAgent) (h : a.alive = false) (ds : List String) :
    runMoves a ds = a := by
  induction ds with
  | nil => rfl
  | cons d t ih =>
    show runMoves (a.move d).2 t = a
    rw [move_dead a h]
    exact ih

theorem appMove_dead (a : AppAgent) (h : a.alive = false) (d : String) :
    a.move d = ((false, "Simulation Ended."), a) := by
  unfold AppAgent.move
  rw [if_pos (Or.inl (by rw [h]; simp))]

theorem runMovesApp_dead (a : AppAgent) (h : a.alive = false) (ds : List String) :
    runMovesApp a ds = a := by
  induction ds with
  | nil => rfl
  | cons d t ih =>
    show runMovesApp (a.move d).2 t = a
    rw [appMove_dead a h]
    exact ih

/-- C9: in both `move` variants, an accepted move onto a hazard cell returns
`success = false` with the death message naming the hazard and sets
`alive = false`; from then on every sequence of further `move` calls leaves
the state unchanged and every call answers `success = false` with
`"Simulation Ended."`. -/
theorem claim9_movement_termination :
    (∀ (a : WumpusAgent) (d : String), a.alive = true → a.moves_made < a.max_moves →
      a.world.is_paradise (a.r, a.c) = false →
      (0 ≤ a.r + (dirDelta d).1 ∧ a.r + (dirDelta d).1 < (a.world.size : Int) ∧
        0 ≤ a.c + (dirDelta d).2 ∧ a.c + (dirDelta d).2 < (a.world.size : Int)) →
      a.world.is_deadly (a.r + (dirDelta d).1, a.c + (dirDelta d).2) = true →
      (a.move d).1.1 = false ∧ (a.move d).2.alive = false ∧
      (a.move d).1.2 = tragedyMsg (a.r + (dirDelta d).1) (a.c + (dirDelta d).2)
        (if (a.r + (dirDelta d).1, a.c + (dirDelta d).2) = a.world.wumpus_pos then "Wumpus" else "Pit") ∧
      (∀ ds : List String, runMoves (a.move d).2 ds = (a.move d).2) ∧
      (∀ (ds : List String) (d2 : String),
        ((runMoves (a.move d).2 ds).move d2).1 = (false, "Simulation Ended."))) ∧
    (∀ (a : AppAgent) (d : String), a.alive = true → a.moves_made < a.max_moves →
      (0 ≤ a.r + (dirDelta d).1 ∧ a.r + (dirDelta d).1 < (a.world.size : Int) ∧
        0 ≤ a.c + (dirDelta d).2 ∧ a.c + (dirDelta d).2 < (a.world.size : Int)) →
      a.world.is_terminal (a.r + (dirDelta d).1, a.c + (dirDelta d).2) = true →
      (a.move d).1.1 = false ∧ (a.move d).2.alive = false ∧
      (a.move d).1.2 = tragedyMsg (a.r + (dirDelta d).1) (a.c + (dirDelta d).2)
        (if (a.r + (dirDelta d).1, a.c + (dirDelta d).2) = a.world.wumpus_pos then "Wumpus" else "Pit") ∧
      (∀ ds : List String, runMovesApp (a.move d).2 ds = (a.move d).2) ∧
      (∀ (ds : List String) (d2 : String),
        ((runMovesApp (a.move d).2 ds).move d2).1 = (false, "Simulation Ended."))) := by
  constructor
  · intro a d h1 h2 h3 h5 h6
    have hmv : a.move d =
        ((false, tragedyMsg (a.r + (dirDelta d).1) (a.c + (dirDelta d).2)
            (if (a.r + (dirDelta d).1, a.c + (dirDelta d).2) = a.world.wumpus_pos then "Wumpus" else "Pit")),
          { a with r := a.r + (dirDelta d).1, c := a.c + (dirDelta d).2, moves_made := a.moves_made + 1, alive := false }) := by
      simp only [WumpusAgent.move]
      rw [if_neg (by rw [h1]; simp; omega)]
      rw [if_neg (by rw [h3]; simp)]
      rw [if_neg (by simpa using h5)]
      rw [if_pos (by simpa using h6)]
    refine ⟨by rw [hmv], by rw [hmv], by rw [hmv], ?_, ?_⟩
    · intro ds
      rw [hmv]
      exact runMoves_dead _ rfl ds
    · intro ds d2
      rw [hmv, runMoves_dead _ rfl ds, move_dead _ rfl d2]
  · intro a d h1 h2 h5 h6
    have hmv : a.move d =
        ((false, tragedyMsg (a.r + (dirDelta d).1) (a.c + (dirDelta d).2)
            (if (a.r + (dirDelta d).1, a.c + (dirDelta d).2) = a.world.wumpus_pos then "Wumpus" else "Pit")),
          { a with r := a.r + (dirDelta d).1, c := a.c + (dirDelta d).2, moves_made := a.moves_made + 1, alive := false }) := by
      simp only [AppAgent.move]
      rw [if_neg (by rw [h1]; simp; omega)]
      rw [if_neg (by simpa using h5)]
      rw [if_pos (by simpa using h6)]
    refine ⟨by rw [hmv], by rw [hmv], by rw [hmv], ?_, ?_⟩
    · intro ds
      rw [hmv]
      exact runMovesApp_dead _ rfl ds
    · intro ds d2
      rw [hmv, runMovesApp_dead _ rfl ds, appMove_dead _ rfl d2]

theorem claim9_witness :
    b0.world.is_deadly (b0.r + (dirDelta "right").1, b0.c + (dirDelta "right").2) = true ∧
    ((b0.move "right").1.1 = false ∧ (b0.move "right").2.alive = false ∧
      (b0.move "right").1.2 = tragedyMsg 0 2 "Wumpus" ∧
      runMoves (b0.move "right").2 ["up", "left"] = (b0.move "right").2 ∧
      ((runMoves (b0.move "right").2 ["up", "left"]).move "down").1 =
        (false, "Simulation Ended.")) ∧
    ((appB0.move "right").1.1 = false ∧ (appB0.move "right").2.alive = false ∧
      runMovesApp (appB0.move "right").2 ["up"] = (appB0.move "right").2 ∧
      ((runMovesApp (appB0.move "right").2 ["up"]).move "down").1 =
        (false, "Simulation Ended.")) := by
  have hw := claim9_movement_termination.1 b0 "right" rfl (by decide) (by decide)
    (by decide) (by decide)
  have ha := claim9_movement_termination.2 appB0 "right" rfl (by decide) (by decide)
    (by decide)
  refine ⟨by decide, ⟨hw.1, hw.2.1, ?_, hw.2.2.2.1 ["up", "left"], hw.2.2.2.2 ["up", "left"] "down"⟩,
    ⟨ha.1, ha.2.1, ha.2.2.2.1 ["up"], ha.2.2.2.2 ["up"] "down"⟩⟩
  have hm := hw.2.2.1
  simpa using hm

end WumpusVerif
